import Mathlib

/-!
Verification of the Candy compiler and VM against its specification.

This file shallowly embeds the parts of the Candy repository
(`JonasWanke/candy`) that the checked claims are about:

* the tracing configuration (`src/compiler/frontend/src/tracing.rs`),
* the reference-counted heap and its default symbols
  (`src/compiler/vm/src/heap/mod.rs`, `heap/object_heap/text.rs`),
* the MIR expression type and the cycle-recovery path of the optimizer
  (`src/compiler/frontend/src/mir/expression.rs`,
  `src/compiler/frontend/src/mir_optimize/mod.rs`),
* the MIR-to-LIR compiler (`src/compiler/vm/src/mir_to_lir.rs`),
* HIR lowering of calls and assignments
  (`src/compiler/frontend/src/ast_to_hir.rs`),
* tree shaking of the older MIR
  (`src/compiler/src/compiler/optimize/tree_shaking.rs`), and
* the struct parser (`src/compiler/frontend/src/string_to_rcst/struct_.rs`)
  together with the CST formatting code (`src/compiler/frontend/src/cst/kind.rs`).

Rust machine integers are modelled as `Nat` with explicit truncation where
overflow matters, Rust strings as `List Char` or `String`, hash maps and sets
as association lists or `Finset`, and fallible code as `Option`.
-/

namespace Candy

/-! ## Tracing configuration

Translated from `src/compiler/frontend/src/tracing.rs`. -/

inductive TracingMode where
  | off
  | onlyCurrent
  | all
deriving DecidableEq, Repr

inductive CallTracingMode where
  | off
  | onlyCurrent
  | onlyForPanicTraces
  | all
deriving DecidableEq, Repr

structure TracingConfig where
  registerFuzzables : TracingMode
  calls : CallTracingMode
  evaluatedExpressions : TracingMode
deriving DecidableEq, Repr

def TracingMode.forChildModule : TracingMode → TracingMode
  | .off => .off
  | .onlyCurrent => .off
  | .all => .all

def CallTracingMode.forChildModule : CallTracingMode → CallTracingMode
  | .off => .off
  | .onlyCurrent => .off
  | .onlyForPanicTraces => .onlyForPanicTraces
  | .all => .all

def TracingConfig.forChildModule (c : TracingConfig) : TracingConfig where
  registerFuzzables := c.registerFuzzables.forChildModule
  calls := c.calls.forChildModule
  evaluatedExpressions := c.evaluatedExpressions.forChildModule

/-- C7: `TracingConfig::for_child_module` maps the three fields pointwise with
`Off ↦ Off`, `OnlyCurrent ↦ Off`, `All ↦ All` (and `OnlyForPanicTraces ↦
OnlyForPanicTraces` for the calls field), so a config built for a child module
never has a field in `OnlyCurrent` mode. -/
theorem tracingConfig_forChildModule_spec :
    (∀ c : TracingConfig,
      (c.forChildModule).registerFuzzables = c.registerFuzzables.forChildModule ∧
      (c.forChildModule).calls = c.calls.forChildModule ∧
      (c.forChildModule).evaluatedExpressions = c.evaluatedExpressions.forChildModule) ∧
    TracingMode.forChildModule .off = .off ∧
    TracingMode.forChildModule .onlyCurrent = .off ∧
    TracingMode.forChildModule .all = .all ∧
    CallTracingMode.forChildModule .off = .off ∧
    CallTracingMode.forChildModule .onlyCurrent = .off ∧
    CallTracingMode.forChildModule .onlyForPanicTraces = .onlyForPanicTraces ∧
    CallTracingMode.forChildModule .all = .all ∧
    (∀ c : TracingConfig,
      (c.forChildModule).registerFuzzables ≠ .onlyCurrent ∧
      (c.forChildModule).calls ≠ .onlyCurrent ∧
      (c.forChildModule).evaluatedExpressions ≠ .onlyCurrent) := by
  refine ⟨fun c => ⟨rfl, rfl, rfl⟩, rfl, rfl, rfl, rfl, rfl, rfl, rfl, fun c => ?_⟩
  obtain ⟨⟨⟩, ⟨⟩, ⟨⟩⟩ := c <;> simp [TracingConfig.forChildModule,
    TracingMode.forChildModule, CallTracingMode.forChildModule]

/-! ## Heap, allocation, reference counting

Translated from `src/compiler/vm/src/heap/mod.rs` and
`src/compiler/vm/src/heap/object_heap/text.rs`. Raw pointers are modelled by
abstract addresses handed out by a counter; the object set (`FxHashSet`
keyed by address) is a list of allocated objects. -/

namespace HeapObject

/-- Modelled from the spec: the header-word layout constants live in
`src/compiler/vm/src/heap/object_heap/mod.rs`, which is absent from `src/`.
The spec describes a tagged header word with a kind field, one
reference-counted flag bit, and a kind-specific remainder; `text.rs` starts
the byte-length payload at bit 4 and `Heap::allocate` asserts that the
payload does not overlap `KIND_MASK | IS_REFERENCE_COUNTED_MASK`, so the
kind occupies bits 0 to 2 and the flag is bit 3. -/
def kindMask : Nat := 7

/-- Modelled from the spec: the reference-counted flag sits right above the
kind bits (see `kindMask`). -/
def isReferenceCountedShift : Nat := 3

/-- Modelled from the spec: mask form of the reference-counted flag bit. -/
def isReferenceCountedMask : Nat := 1 <<< isReferenceCountedShift

/-- Modelled from the spec: the concrete tag value chosen for `KIND_TEXT` in
the missing `object_heap/mod.rs`; only its fitting inside `kindMask`
matters for the embedded code. -/
def kindText : Nat := 2

end HeapObject

structure HeapObj where
  address : Nat
  headerWord : Nat
  referenceCount : Option Nat
deriving DecidableEq, Repr

/-- `HeapObject::is_reference_counted`: reads the flag bit of the header. -/
def HeapObj.isReferenceCounted (o : HeapObj) : Bool :=
  o.headerWord &&& HeapObject.isReferenceCountedMask != 0

structure Heap where
  objects : List HeapObj
  nextAddress : Nat
deriving DecidableEq, Repr

def Heap.empty : Heap := { objects := [], nextAddress := 0 }

/-- `Heap::allocate_raw`: stores the header word (a `u64`), initializes the
reference count to 1 exactly when the header's flag bit is set, and inserts
the object into the heap's object set. -/
def Heap.allocateRaw (heap : Heap) (headerWord : Nat) (contentSize : Nat) :
    HeapObj × Heap :=
  let word := headerWord % 2 ^ 64
  let fresh : HeapObj :=
    { address := heap.nextAddress, headerWord := word, referenceCount := none }
  let object := if fresh.isReferenceCounted then { fresh with referenceCount := some 1 } else fresh
  let _ := contentSize
  (object, { objects := object :: heap.objects, nextAddress := heap.nextAddress + 1 })

/-- `Heap::allocate`: assembles the header word from the kind bits, the
reference-counted flag, and the remaining header word. -/
def Heap.allocate (heap : Heap) (kindBits : Nat) (isReferenceCounted : Bool)
    (remainingHeaderWord : Nat) (contentSize : Nat) : HeapObj × Heap :=
  let headerWord :=
    kindBits |||
      ((if isReferenceCounted then 1 else 0) <<< HeapObject.isReferenceCountedShift) |||
      remainingHeaderWord
  heap.allocateRaw headerWord contentSize

/-! ### Texts -/

/-- UTF-8 byte length of a Rust string modelled as a list of characters. -/
def utf8Len (s : List Char) : Nat := (s.map Char.utf8Size).sum

namespace HeapText

def byteLenShift : Nat := 4

end HeapText

/-- A `Text` is a handle to a heap object; the stored UTF-8 bytes are
modelled by carrying the string value alongside the object handle. -/
structure Text where
  obj : HeapObj
  value : List Char
deriving DecidableEq, Repr

instance : Inhabited Text :=
  ⟨{ obj := { address := 0, headerWord := 0, referenceCount := none }, value := [] }⟩

/-- `HeapText::create`: asserts that the byte length survives the shift into
the header word (returning `none` models the `assert_eq!` panic), then
allocates a text object whose header records the byte length. -/
def Text.create (heap : Heap) (isReferenceCounted : Bool) (value : List Char) :
    Option (Text × Heap) :=
  let byteLen := utf8Len value
  if ((byteLen <<< HeapText.byteLenShift) % 2 ^ 64) >>> HeapText.byteLenShift = byteLen then
    let result := heap.allocate HeapObject.kindText isReferenceCounted
      (byteLen <<< HeapText.byteLenShift) byteLen
    some ({ obj := result.1, value := value }, result.2)
  else
    none

/-- `HeapText::get`. -/
def Text.get (t : Text) : List Char := t.value

/-- `HeapText::byte_len`: reads the byte length back out of the header word. -/
def Text.byteLen (t : Text) : Nat := t.obj.headerWord >>> HeapText.byteLenShift

/-- `HeapText::length`: counts extended grapheme clusters of the stored
string. Unicode segmentation comes from the external `unicode_segmentation`
crate, so the segmentation function is a parameter; the `Int::create`
wrapping of the count is elided, the claim being about the count itself. -/
def Text.length (graphemes : List Char → List (List Char)) (t : Text) : Nat :=
  (graphemes t.get).length

/-! ### Default symbols -/

/-- Byte-wise lexicographic comparison of Rust `&str` values. UTF-8 encoding
preserves code-point order, so comparing characters code point by code point
is the same order. -/
def strCmp : List Char → List Char → Ordering
  | [], [] => .eq
  | [], _ :: _ => .lt
  | _ :: _, [] => .gt
  | a :: as_, b :: bs =>
    match compare a.toNat b.toNat with
    | .eq => strCmp as_ bs
    | o => o

structure DefaultSymbols where
  arguments : Text
  builtin : Text
  close : Text
  compile : Text
  equal : Text
  error : Text
  false_ : Text
  file : Text
  fileSystem : Text
  function : Text
  getRandomBytes : Text
  getNextRequest : Text
  greater : Text
  httpServer : Text
  instantiate : Text
  int : Text
  less : Text
  list : Text
  notAnInteger : Text
  notUtf8 : Text
  nothing : Text
  ok : Text
  open_ : Text
  readToEnd : Text
  request : Text
  sendResponse : Text
  stdin : Text
  stdout : Text
  struct_ : Text
  systemClock : Text
  tag : Text
  text : Text
  true_ : Text
  wasm : Text
deriving Repr

/-- `DefaultSymbols::new`: interns the default symbol texts, in the creation
order of the source (which differs slightly from the struct field order). -/
def DefaultSymbols.new (heap : Heap) : Option (DefaultSymbols × Heap) :=
  match Text.create heap false "Arguments".toList with
  | none => none
  | some (arguments, heap1) =>
  match Text.create heap1 false "Builtin".toList with
  | none => none
  | some (builtin, heap2) =>
  match Text.create heap2 false "Close".toList with
  | none => none
  | some (close, heap3) =>
  match Text.create heap3 false "Compile".toList with
  | none => none
  | some (compile, heap4) =>
  match Text.create heap4 false "Equal".toList with
  | none => none
  | some (equal, heap5) =>
  match Text.create heap5 false "Error".toList with
  | none => none
  | some (error, heap6) =>
  match Text.create heap6 false "False".toList with
  | none => none
  | some (false_, heap7) =>
  match Text.create heap7 false "File".toList with
  | none => none
  | some (file, heap8) =>
  match Text.create heap8 false "FileSystem".toList with
  | none => none
  | some (fileSystem, heap9) =>
  match Text.create heap9 false "Function".toList with
  | none => none
  | some (function, heap10) =>
  match Text.create heap10 false "GetNextRequest".toList with
  | none => none
  | some (getNextRequest, heap11) =>
  match Text.create heap11 false "GetRandomBytes".toList with
  | none => none
  | some (getRandomBytes, heap12) =>
  match Text.create heap12 false "Greater".toList with
  | none => none
  | some (greater, heap13) =>
  match Text.create heap13 false "HttpServer".toList with
  | none => none
  | some (httpServer, heap14) =>
  match Text.create heap14 false "Int".toList with
  | none => none
  | some (int, heap15) =>
  match Text.create heap15 false "Instantiate".toList with
  | none => none
  | some (instantiate, heap16) =>
  match Text.create heap16 false "Less".toList with
  | none => none
  | some (less, heap17) =>
  match Text.create heap17 false "List".toList with
  | none => none
  | some (list, heap18) =>
  match Text.create heap18 false "NotAnInteger".toList with
  | none => none
  | some (notAnInteger, heap19) =>
  match Text.create heap19 false "NotUtf8".toList with
  | none => none
  | some (notUtf8, heap20) =>
  match Text.create heap20 false "Nothing".toList with
  | none => none
  | some (nothing, heap21) =>
  match Text.create heap21 false "Ok".toList with
  | none => none
  | some (ok, heap22) =>
  match Text.create heap22 false "Open".toList with
  | none => none
  | some (open_, heap23) =>
  match Text.create heap23 false "ReadToEnd".toList with
  | none => none
  | some (readToEnd, heap24) =>
  match Text.create heap24 false "Request".toList with
  | none => none
  | some (request, heap25) =>
  match Text.create heap25 false "SendResponse".toList with
  | none => none
  | some (sendResponse, heap26) =>
  match Text.create heap26 false "Stdin".toList with
  | none => none
  | some (stdin, heap27) =>
  match Text.create heap27 false "Stdout".toList with
  | none => none
  | some (stdout, heap28) =>
  match Text.create heap28 false "Struct".toList with
  | none => none
  | some (struct_, heap29) =>
  match Text.create heap29 false "SystemClock".toList with
  | none => none
  | some (systemClock, heap30) =>
  match Text.create heap30 false "Tag".toList with
  | none => none
  | some (tag, heap31) =>
  match Text.create heap31 false "Text".toList with
  | none => none
  | some (text, heap32) =>
  match Text.create heap32 false "True".toList with
  | none => none
  | some (true_, heap33) =>
  match Text.create heap33 false "Wasm".toList with
  | none => none
  | some (wasm, heap34) =>
  some (⟨arguments, builtin, close, compile, equal, error, false_, file, fileSystem, function, getRandomBytes, getNextRequest, greater, httpServer, instantiate, int, less, list, notAnInteger, notUtf8, nothing, ok, open_, readToEnd, request, sendResponse, stdin, stdout, struct_, systemClock, tag, text, true_, wasm⟩, heap34)

/-- `DefaultSymbols::all_symbols`: the 31-element array handed to the binary
search; `compile`, `instantiate`, and `wasm` are not in it. -/
def DefaultSymbols.allSymbols (s : DefaultSymbols) : List Text :=
  [s.arguments, s.builtin, s.close, s.equal, s.error, s.false_, s.file,
   s.fileSystem, s.function, s.getNextRequest, s.getRandomBytes, s.greater,
   s.httpServer, s.int, s.less, s.list, s.notAnInteger, s.notUtf8, s.nothing,
   s.ok, s.open_, s.readToEnd, s.request, s.sendResponse, s.stdin, s.stdout,
   s.struct_, s.systemClock, s.tag, s.text, s.true_]

/-- The loop of Rust's `slice::binary_search_by_key` (comparing the element's
key against the searched key), with explicit fuel; `Err` becomes `none`, as
`DefaultSymbols::get` discards it via `.ok()`. -/
def binarySearchGo (symbols : List Text) (key : List Char) :
    Nat → Nat → Nat → Nat → Option Nat
  | 0, _, _, _ => none
  | fuel + 1, left, right, size =>
    if left < right then
      let mid := left + size / 2
      match strCmp ((symbols.getD mid default).get) key with
      | .lt => binarySearchGo symbols key fuel (mid + 1) right (right - (mid + 1))
      | .gt => binarySearchGo symbols key fuel left mid (mid - left)
      | .eq => some mid
    else
      none

/-- `DefaultSymbols::get`: binary search over `all_symbols`. -/
def DefaultSymbols.get (s : DefaultSymbols) (text : List Char) : Option Text :=
  let symbols := s.allSymbols
  match binarySearchGo symbols text (symbols.length + 1) 0 symbols.length
      symbols.length with
  | none => none
  | some i => some (symbols.getD i default)

/-! ### Heap lemmas and theorems -/

lemma header_flag_bit (k r : Nat) (f : Bool) (hk : k < 8) (hr : r &&& 15 = 0) :
    ((k ||| ((if f then 1 else 0) <<< HeapObject.isReferenceCountedShift) ||| r)
        % 2 ^ 64).testBit 3 = f := by
  have hktest : k.testBit 3 = false := Nat.testBit_lt_two_pow hk
  have hrtest : r.testBit 3 = false := by
    have h15 : (r &&& 15).testBit 3 = (r.testBit 3 && Nat.testBit 15 3) :=
      Nat.testBit_and r 15 3
    rw [hr, Nat.zero_testBit, show Nat.testBit 15 3 = true from rfl,
      Bool.and_true] at h15
    exact h15.symm
  have hftest :
      ((if f then 1 else 0 : Nat) <<< HeapObject.isReferenceCountedShift).testBit 3 = f := by
    cases f <;> rfl
  have hmod := Nat.testBit_mod_two_pow
    (k ||| ((if f then 1 else 0) <<< HeapObject.isReferenceCountedShift) ||| r) 64 3
  rw [hmod, Nat.testBit_or, Nat.testBit_or, hktest, hrtest, hftest]
  cases f <;> rfl

lemma isReferenceCounted_eq_testBit (o : HeapObj) :
    o.isReferenceCounted = o.headerWord.testBit 3 := by
  have hmask : HeapObject.isReferenceCountedMask = 2 ^ 3 := rfl
  rw [HeapObj.isReferenceCounted, hmask, Nat.and_two_pow]
  cases h : o.headerWord.testBit 3 <;> simp [h]

lemma allocateRaw_spec (heap : Heap) (hw cs : Nat) :
    (heap.allocateRaw hw cs).1.headerWord = hw % 2 ^ 64 ∧
    (heap.allocateRaw hw cs).1.referenceCount
      = (if (heap.allocateRaw hw cs).1.isReferenceCounted then some 1 else none) ∧
    (heap.allocateRaw hw cs).1 ∈ (heap.allocateRaw hw cs).2.objects := by
  simp only [Heap.allocateRaw]
  by_cases h : HeapObj.isReferenceCounted
      { address := heap.nextAddress, headerWord := hw % 2 ^ 64, referenceCount := none } <;>
    simp [h, HeapObj.isReferenceCounted] at * <;>
    simp_all [HeapObj.isReferenceCounted]

/-- C8: objects allocated through `Heap::allocate` / `Heap::allocate_raw` with
the reference-counted flag set in the header get a reference count of exactly
1 and are inserted into the heap's object set; with the flag cleared no
reference count is written. The two hypotheses are `Heap::allocate`'s own
`debug_assert`s (kind bits inside `KIND_MASK`, remaining header word disjoint
from the kind and flag bits). -/
theorem heap_allocate_reference_count_spec
    (heap : Heap) (kindBits : Nat) (flag : Bool) (remainingHeaderWord : Nat)
    (contentSize : Nat)
    (hkind : kindBits < 8)
    (hrem : remainingHeaderWord &&&
      (HeapObject.kindMask ||| HeapObject.isReferenceCountedMask) = 0) :
    ((heap.allocate kindBits flag remainingHeaderWord contentSize).1 ∈
        (heap.allocate kindBits flag remainingHeaderWord contentSize).2.objects) ∧
    (heap.allocate kindBits flag remainingHeaderWord contentSize).1.isReferenceCounted
      = flag ∧
    (heap.allocate kindBits flag remainingHeaderWord contentSize).1.referenceCount
      = (if flag then some 1 else none) ∧
    (∀ headerWord otherContentSize,
      (heap.allocateRaw headerWord otherContentSize).1 ∈
        (heap.allocateRaw headerWord otherContentSize).2.objects ∧
      (heap.allocateRaw headerWord otherContentSize).1.referenceCount
        = (if (heap.allocateRaw headerWord otherContentSize).1.isReferenceCounted
            then some 1 else none)) := by
  have hr15 : remainingHeaderWord &&& 15 = 0 := by
    have h15 : (HeapObject.kindMask ||| HeapObject.isReferenceCountedMask) = 15 := rfl
    rwa [h15] at hrem
  obtain ⟨hhw, hrc, hmem⟩ := allocateRaw_spec heap
    (kindBits ||| ((if flag then 1 else 0) <<< HeapObject.isReferenceCountedShift) |||
      remainingHeaderWord) contentSize
  have halloc : heap.allocate kindBits flag remainingHeaderWord contentSize
      = heap.allocateRaw
        (kindBits ||| ((if flag then 1 else 0) <<< HeapObject.isReferenceCountedShift) |||
          remainingHeaderWord) contentSize := rfl
  have hflag :
      (heap.allocate kindBits flag remainingHeaderWord contentSize).1.isReferenceCounted
        = flag := by
    rw [halloc, isReferenceCounted_eq_testBit, hhw]
    exact header_flag_bit kindBits remainingHeaderWord flag hkind hr15
  refine ⟨?_, hflag, ?_, ?_⟩
  · rw [halloc]
    exact hmem
  · rw [halloc] at hflag ⊢
    rw [hrc, hflag]
  · intro headerWord otherContentSize
    obtain ⟨_, hrc2, hmem2⟩ := allocateRaw_spec heap headerWord otherContentSize
    exact ⟨hmem2, hrc2⟩

/-- The witness instantiates C8 at a concrete allocation. -/
theorem heap_allocate_reference_count_spec_witness :
    ((Heap.empty.allocate 2 true 48 3).1 ∈ (Heap.empty.allocate 2 true 48 3).2.objects) ∧
    (Heap.empty.allocate 2 true 48 3).1.isReferenceCounted = true ∧
    (Heap.empty.allocate 2 true 48 3).1.referenceCount = (if true then some 1 else none) ∧
    (∀ headerWord otherContentSize,
      (Heap.empty.allocateRaw headerWord otherContentSize).1 ∈
        (Heap.empty.allocateRaw headerWord otherContentSize).2.objects ∧
      (Heap.empty.allocateRaw headerWord otherContentSize).1.referenceCount
        = (if (Heap.empty.allocateRaw headerWord otherContentSize).1.isReferenceCounted
            then some 1 else none)) :=
  heap_allocate_reference_count_spec Heap.empty 2 true 48 3 (by decide) (by decide)

/-- Strict ascending order of a symbol array under the byte-wise string
comparison used by the binary search. -/
def sortedByValue : List Text → Bool
  | [] => true
  | [_] => true
  | a :: b :: t => (strCmp a.value b.value == Ordering.lt) && sortedByValue (b :: t)

/-- C9: `DefaultSymbols::new` interns 34 default symbol texts in the heap
(it is invoked on the fresh heap built by `Heap::default`), while `get`
binary-searches only the 31-element `all_symbols` array; that array is sorted
strictly ascending by text, `get` finds each of its 31 texts, and `get`
returns `None` for "Compile", "Instantiate", and "Wasm" although those three
are created as default symbols. -/
theorem defaultSymbols_get_spec :
    ∃ syms heap2, DefaultSymbols.new Heap.empty = some (syms, heap2) ∧
      heap2.objects.length = Heap.empty.objects.length + 34 ∧
      syms.allSymbols.length = 31 ∧
      sortedByValue syms.allSymbols = true ∧
      (∀ t ∈ syms.allSymbols, syms.get t.value = some t) ∧
      syms.get "Compile".toList = none ∧
      syms.get "Instantiate".toList = none ∧
      syms.get "Wasm".toList = none := by
  refine ⟨_, _, rfl, ?_, ?_, ?_, ?_, ?_, ?_, ?_⟩ <;> decide

/-! ### Text length vs byte length -/

lemma utf8Len_cons (c : Char) (cs : List Char) :
    utf8Len (c :: cs) = c.utf8Size + utf8Len cs := by
  simp [utf8Len]

lemma utf8Len_pos {p : List Char} (hp : p ≠ []) : 1 ≤ utf8Len p := by
  cases p with
  | nil => simp at hp
  | cons c cs =>
    have := Char.utf8Size_pos c
    rw [utf8Len_cons]
    omega

lemma utf8Len_append (a b : List Char) :
    utf8Len (a ++ b) = utf8Len a + utf8Len b := by
  simp [utf8Len]

lemma utf8Len_flatten (l : List (List Char)) :
    utf8Len l.flatten = (l.map utf8Len).sum := by
  induction l with
  | nil => rfl
  | cons p t ih => simp [List.flatten, utf8Len_append, ih]

lemma count_lt_sum {l : List Nat} (h : ∀ i ∈ l, 1 ≤ i) (h2 : ∃ i ∈ l, 2 ≤ i) :
    l.length < l.sum := by
  induction l with
  | nil => simp at h2
  | cons a t ih =>
    obtain ⟨i, hi, h2i⟩ := h2
    rcases List.mem_cons.mp hi with rfl | hit
    · have ht := List.length_le_sum_of_one_le t fun j hj => h j (List.mem_cons_of_mem _ hj)
      simp only [List.length_cons, List.sum_cons]
      omega
    · have ht := ih (fun j hj => h j (List.mem_cons_of_mem _ hj)) ⟨i, hit, h2i⟩
      have ha := h a (List.mem_cons_self _ _)
      simp only [List.length_cons, List.sum_cons]
      omega

lemma shlShr_mod (L : Nat) : ((L <<< 4) % 2 ^ 64) >>> 4 = L % 2 ^ 60 := by
  rw [Nat.shiftLeft_eq, Nat.shiftRight_eq_div_pow]
  have h64 : (2 : Nat) ^ 64 = 2 ^ 4 * 2 ^ 60 := by norm_num
  rw [h64, Nat.mul_comm L (2 ^ 4), Nat.mul_mod_mul_left,
    Nat.mul_div_cancel_left _ (by norm_num : 0 < (2 : Nat) ^ 4)]

lemma header_byteLen_decode (L : Nat) (f : Bool) (hL : L < 2 ^ 60) :
    ((HeapObject.kindText |||
        ((if f then 1 else 0) <<< HeapObject.isReferenceCountedShift) |||
        (L <<< HeapText.byteLenShift)) % 2 ^ 64) >>> HeapText.byteLenShift = L := by
  simp only [HeapObject.kindText, HeapObject.isReferenceCountedShift, HeapText.byteLenShift]
  apply Nat.eq_of_testBit_eq
  intro j
  rw [Nat.testBit_shiftRight, Nat.testBit_mod_two_pow, Nat.testBit_or, Nat.testBit_or,
    Nat.testBit_shiftLeft, Nat.testBit_shiftLeft]
  have h2 : (2 : Nat).testBit (4 + j) = false := by
    refine Nat.testBit_lt_two_pow (lt_of_lt_of_le (by norm_num : (2 : Nat) < 2 ^ 4) ?_)
    exact Nat.pow_le_pow_right (by norm_num) (by omega)
  have hf : (if f then 1 else 0 : Nat).testBit (4 + j - 3) = false := by
    refine Nat.testBit_lt_two_pow ?_
    have h1 : (1 : Nat) < 2 ^ (4 + j - 3) := by
      have : (0 : Nat) < 4 + j - 3 := by omega
      calc (1 : Nat) < 2 ^ 1 := by norm_num
        _ ≤ 2 ^ (4 + j - 3) := Nat.pow_le_pow_right (by norm_num) (by omega)
    have h0 : (0 : Nat) < 2 ^ (4 + j - 3) := Nat.pos_pow_of_pos _ (by norm_num)
    cases f
    · simp only [if_neg Bool.false_ne_true]
      exact h0
    · simpa using h1
  have hidx : 4 + j - 4 = j := by omega
  rw [h2, hf, hidx]
  by_cases hj : j < 60
  · have hlt : 4 + j < 64 := by omega
    simp [hlt]
  · have hLj : L.testBit j = false := by
      refine Nat.testBit_lt_two_pow (lt_of_lt_of_le hL ?_)
      exact Nat.pow_le_pow_right (by norm_num) (by omega)
    simp [hLj]

lemma Text.create_eq (heap : Heap) (flag : Bool) (value : List Char) (t : Text)
    (heap2 : Heap) (h : Text.create heap flag value = some (t, heap2)) :
    t.value = value ∧ t.byteLen = utf8Len value := by
  rw [Text.create] at h
  split at h
  case isTrue hcond =>
    rw [Option.some.injEq, Prod.mk.injEq] at h
    obtain ⟨ht, hh⟩ := h
    have hL : utf8Len value < 2 ^ 60 := by
      simp only [HeapText.byteLenShift] at hcond
      rw [shlShr_mod] at hcond
      have := Nat.mod_lt (utf8Len value) (show 0 < 2 ^ 60 by norm_num)
      omega
    obtain ⟨hhw, -, -⟩ := allocateRaw_spec heap
      (HeapObject.kindText |||
        ((if flag then 1 else 0) <<< HeapObject.isReferenceCountedShift) |||
        (utf8Len value <<< HeapText.byteLenShift)) (utf8Len value)
    subst ht
    refine ⟨rfl, ?_⟩
    show (heap.allocate HeapObject.kindText flag
        (utf8Len value <<< HeapText.byteLenShift) (utf8Len value)).1.headerWord
      >>> HeapText.byteLenShift = utf8Len value
    have halloc : (heap.allocate HeapObject.kindText flag
        (utf8Len value <<< HeapText.byteLenShift) (utf8Len value)).1
        = (heap.allocateRaw (HeapObject.kindText |||
            ((if flag then 1 else 0) <<< HeapObject.isReferenceCountedShift) |||
            (utf8Len value <<< HeapText.byteLenShift)) (utf8Len value)).1 := rfl
    rw [halloc, hhw]
    exact header_byteLen_decode (utf8Len value) flag hL
  case isFalse hcond => cases h

/-- C10: `HeapText::length` returns the number of extended grapheme clusters
of the stored string rather than the UTF-8 byte length recorded in the header
word: for any valid segmentation into nonempty clusters the count is at most
`byte_len`, and strictly below it as soon as some cluster occupies at least
two bytes (a multi-byte or multi-codepoint grapheme). -/
theorem heapText_length_grapheme_spec
    (graphemes : List Char → List (List Char)) (heap : Heap) (flag : Bool)
    (value : List Char) (t : Text) (heap2 : Heap)
    (hcreate : Text.create heap flag value = some (t, heap2))
    (hjoin : (graphemes value).flatten = value)
    (hpieces : ∀ p ∈ graphemes value, p ≠ []) :
    Text.length graphemes t = (graphemes t.get).length ∧
    Text.length graphemes t ≤ t.byteLen ∧
    ((∃ p ∈ graphemes value, 2 ≤ utf8Len p) → Text.length graphemes t < t.byteLen) := by
  obtain ⟨hval, hbl⟩ := Text.create_eq heap flag value t heap2 hcreate
  have hsum : utf8Len value = ((graphemes value).map utf8Len).sum := by
    conv_lhs => rw [← hjoin]
    exact utf8Len_flatten (graphemes value)
  have hone : ∀ i ∈ (graphemes value).map utf8Len, 1 ≤ i := by
    intro i hi
    obtain ⟨p, hp, rfl⟩ := List.mem_map.mp hi
    exact utf8Len_pos (hpieces p hp)
  refine ⟨rfl, ?_, ?_⟩
  · rw [hbl, hsum, Text.length, Text.get, hval]
    have := List.length_le_sum_of_one_le ((graphemes value).map utf8Len) hone
    simpa using this
  · rintro ⟨p, hp, h2p⟩
    rw [hbl, hsum, Text.length, Text.get, hval]
    have := count_lt_sum hone ⟨utf8Len p, List.mem_map_of_mem _ hp, h2p⟩
    simpa using this

/-- The witness instantiates C10 with the two-grapheme text `aé` (three UTF-8
bytes). -/
theorem heapText_length_grapheme_spec_witness :
    Text.length (fun _ => [['a'], ['é']])
        (⟨⟨0, 58, some 1⟩, ['a', 'é']⟩ : Text)
      = ((fun _ => [['a'], ['é']]) (Text.get ⟨⟨0, 58, some 1⟩, ['a', 'é']⟩)).length ∧
    Text.length (fun _ => [['a'], ['é']]) (⟨⟨0, 58, some 1⟩, ['a', 'é']⟩ : Text)
      ≤ Text.byteLen ⟨⟨0, 58, some 1⟩, ['a', 'é']⟩ ∧
    ((∃ p ∈ (fun _ => [['a'], ['é']]) ['a', 'é'], 2 ≤ utf8Len p) →
      Text.length (fun _ => [['a'], ['é']]) (⟨⟨0, 58, some 1⟩, ['a', 'é']⟩ : Text)
        < Text.byteLen ⟨⟨0, 58, some 1⟩, ['a', 'é']⟩) :=
  heapText_length_grapheme_spec (fun _ => [['a'], ['é']]) Heap.empty true
    ['a', 'é'] ⟨⟨0, 58, some 1⟩, ['a', 'é']⟩ ⟨[⟨0, 58, some 1⟩], 1⟩
    rfl (by decide) (by decide)

/-! ## Modules, HIR ids, MIR

The MIR expression type is translated from
`src/compiler/frontend/src/mir/expression.rs` with MIR ids
(`src/compiler/frontend/src/mir/id.rs`, a `usize`) as `Nat`. -/

/-- Modelled from the spec: `Package` (in the absent
`module/package.rs`) is "a package reference"; only its identity matters
here. -/
structure Package where
  name : String
deriving DecidableEq, Repr

/-- Translated from `src/compiler/frontend/src/module/module.rs`. -/
inductive ModuleKind where
  | code
  | asset
deriving DecidableEq, Repr

structure Module where
  package : Package
  path : List String
  kind : ModuleKind
deriving DecidableEq, Repr

/-- Modelled from the spec: HIR ids (in the absent `hir.rs`) are "a module
plus an ordered key path where each key is either a name with disambiguator
or an integer". -/
inductive IdKey where
  | named (name : String) (disambiguator : Nat)
  | int (value : Nat)
deriving DecidableEq, Repr

structure HirId where
  module : Module
  keys : List IdKey
deriving DecidableEq, Repr

/-- `hir::Id::new`. -/
def HirId.new (module : Module) (keys : List IdKey) : HirId :=
  { module := module, keys := keys }

/-- `hir::Id::child`. -/
def HirId.child (id : HirId) (key : IdKey) : HirId :=
  { id with keys := id.keys ++ [key] }

/-- Modelled from the spec: builtin functions (the absent
`builtin_functions.rs`) form "a fixed vocabulary of primitive operations";
only their identity matters here. -/
structure BuiltinFunction where
  index : Nat
deriving DecidableEq, Repr

abbrev MirId := Nat

/-- `mir::Expression`, translated constructor by constructor from
`src/compiler/frontend/src/mir/expression.rs`; a `Body` is its ordered list
of `(Id, Expression)` pairs. -/
inductive Expression where
  | int (value : Int)
  | text (value : String)
  | tag (symbol : String) (value : Option MirId)
  | builtin (function : BuiltinFunction)
  | list (items : List MirId)
  | struct_ (fields : List (MirId × MirId))
  | reference (id : MirId)
  | hirId (id : HirId)
  | function (originalHirs : List HirId) (parameters : List MirId)
      (responsibleParameter : MirId) (body : List (MirId × Expression))
  | parameter
  | call (function : MirId) (arguments : List MirId) (responsible : MirId)
  | useModule (currentModule : Module) (relativePath : MirId) (responsible : MirId)
  | panic (reason : MirId) (responsible : MirId)
  | multiple (body : List (MirId × Expression))
  | traceCallStarts (hirCall : MirId) (function : MirId) (arguments : List MirId)
      (responsible : MirId)
  | traceCallEnds (returnValue : MirId)
  | traceExpressionEvaluated (hirExpression : MirId) (value : MirId)
  | traceFoundFuzzableFunction (hirDefinition : MirId) (function : MirId)
deriving Repr

def Body := List (MirId × Expression)

/-- `mir::Mir`: an id generator plus a body. -/
structure Mir where
  idGenerator : Nat
  body : List (MirId × Expression)
deriving Repr

/-! ## Optimizer cycle recovery

Translated from `recover_from_cycle` in
`src/compiler/frontend/src/mir_optimize/mod.rs`. -/

/-- `MirError`, restricted to the variant this path constructs. Modelled from
the spec where the repo file (`error.rs`) is absent from `src/`: the
optimizer surfaces a module-cycle error. -/
inductive MirError where
  | moduleHasCycle (cycle : List String)
deriving DecidableEq, Repr

/-- `HirError`: the lowering-error kinds `ast_to_hir.rs` constructs. -/
inductive HirError where
  | unknownReference (name : String)
  | publicAssignmentInNotTopLevel
  | publicAssignmentWithSameName (name : String)
  | needsWithWrongNumberOfArguments (numArgs : Nat)
  | patternContainsCall
deriving DecidableEq, Repr

inductive CompilerErrorPayload where
  | hir (error : HirError)
  | mir (error : MirError)
deriving DecidableEq, Repr

/-- Modelled from the spec: the `Display` text of the payload (the exact
wording lives in the absent `error.rs`); the cycle claim only requires the
panic reason to carry this cycle-error message. -/
def CompilerErrorPayload.messageText : CompilerErrorPayload → String
  | .mir (.moduleHasCycle cycle) =>
    "There is a cycle in the used modules: " ++ String.intercalate " -> " cycle
  | .hir _ => "A lowering error occurred."

/-- `CompilerError` with `for_whole_module` spanning the entire module
(span modelled as the degenerate range, from the spec: "an error kind +
source range"). -/
structure CompilerError where
  module : Module
  spanStart : Nat
  spanEnd : Nat
  payload : CompilerErrorPayload
deriving DecidableEq, Repr

def CompilerError.forWholeModule (module : Module) (payload : CompilerErrorPayload) :
    CompilerError :=
  { module := module, spanStart := 0, spanEnd := 0, payload := payload }

/-- Modelled from the spec: the body builder used by `Mir::build` (the absent
`mir/body.rs`); `push` appends an expression under a freshly generated id. -/
structure BodyBuilder where
  nextId : Nat
  expressions : List (MirId × Expression)
deriving Repr

def BodyBuilder.push (b : BodyBuilder) (expression : Expression) :
    MirId × BodyBuilder :=
  ((b.nextId : MirId),
    { nextId := b.nextId + 1, expressions := b.expressions ++ [(b.nextId, expression)] })

def BodyBuilder.pushText (b : BodyBuilder) (text : String) : MirId × BodyBuilder :=
  b.push (.text text)

def BodyBuilder.pushHirId (b : BodyBuilder) (id : HirId) : MirId × BodyBuilder :=
  b.push (.hirId id)

def BodyBuilder.pushPanic (b : BodyBuilder) (reason responsible : MirId) :
    MirId × BodyBuilder :=
  b.push (.panic reason responsible)

def Mir.build (f : BodyBuilder → BodyBuilder) : Mir :=
  let b := f { nextId := 0, expressions := [] }
  { idGenerator := b.nextId, body := b.expressions }

/-- Modelled from the spec: purity insights are "a side table mapping MIRIDs
to pure / impure / unknown"; the recovery path returns the default (empty)
table, whose content the claim does not touch. -/
structure PurenessInsights where
  entries : List (MirId × Bool)
deriving Repr

/-- Modelled from the spec: module-level errors of the parser stage (the
absent `string_to_rcst/mod.rs`); cycle recovery never produces one. -/
inductive ModuleError where
  | doesNotExist
  | invalidUtf8
  | isNotCandy
deriving DecidableEq, Repr

/-- `recover_from_cycle`: builds the module-cycle compiler error, a MIR that
pushes the error text, the module's own HIR id (empty key path) and a panic
blaming it, and returns them under `Ok`. -/
def recoverFromCycle (cycle : List String) (module : Module) :
    Except ModuleError (Mir × PurenessInsights × List CompilerError) :=
  let error := CompilerError.forWholeModule module
    (CompilerErrorPayload.mir (MirError.moduleHasCycle cycle))
  let mir := Mir.build fun body =>
    let (reason, body) := body.pushText error.payload.messageText
    let (responsible, body) := body.pushHirId (HirId.new module [])
    (body.pushPanic reason responsible).2
  .ok (mir, { entries := [] }, [error])

/-- C2: when the optimizer's recursive request hits an import cycle,
`recover_from_cycle` returns `Ok` with a synthesized MIR whose body is a
`Text` carrying the cycle-error message, a `HirId` naming the affected module
with empty key path, and a final `Panic` using that text as reason and that
id as responsible; the module-cycle error is in the returned error set. -/
theorem recoverFromCycle_spec (cycle : List String) (module : Module) :
    ∃ mir pureness errors,
      recoverFromCycle cycle module = .ok (mir, pureness, errors) ∧
      mir.body =
        [((0 : MirId), Expression.text
            (CompilerErrorPayload.mir (MirError.moduleHasCycle cycle)).messageText),
          ((1 : MirId), Expression.hirId (HirId.new module [])),
          ((2 : MirId), Expression.panic 0 1)] ∧
      CompilerError.forWholeModule module
          (CompilerErrorPayload.mir (MirError.moduleHasCycle cycle)) ∈ errors :=
  ⟨_, _, _, rfl, rfl, List.mem_singleton.mpr rfl⟩

/-! ## MIR-to-LIR compilation

Translated from `src/compiler/vm/src/mir_to_lir.rs`. Constants live in a
constant heap modelled as the list of created objects; the compile-time
stack of MIR ids keeps its top at the head of the list, so Rust's
`find_id` (position from the top) is `List.idxOf?`. -/

/-- The inline objects the LIR compiler creates in the constant heap,
mirroring the `create` calls in `mir_to_lir.rs` (`Int`, `Text`, `Tag`,
`Builtin`, `List`, `Struct`, `HirId`, `Function`). -/
inductive InlineObject where
  | int (value : Int)
  | text (value : String)
  | tag (symbol : String) (value : Option InlineObject)
  | builtin (function : BuiltinFunction)
  | list (items : List InlineObject)
  | struct_ (fields : List (InlineObject × InlineObject))
  | hirId (id : HirId)
  | functionObj (captured : List InlineObject) (numArgs : Nat) (body : Nat)
deriving Repr

/-- Modelled from the spec: the LIR instruction set of section 4.4 (the VM's
`lir.rs` is absent from `src/`). -/
inductive Instruction where
  | pushConstant (constant : InlineObject)
  | pushFromStack (offset : Nat)
  | popMultipleBelowTop (n : Nat)
  | createTag (symbol : String)
  | createList (numItems : Nat)
  | createStruct (numFields : Nat)
  | createFunction (captured : List Nat) (numArgs : Nat) (body : Nat)
  | call (numArgs : Nat)
  | tailCall (numLocalsToPop : Nat) (numArgs : Nat)
  | ret
  | panic
  | traceCallStarts (numArgs : Nat)
  | traceCallEnds
  | traceExpressionEvaluated
  | traceFoundFuzzableFunction
deriving Repr

/-- Modelled from the spec: `Instruction::apply_to_stack` (in the absent
`lir.rs`) mirrors each instruction's operand consumption from section 4.6 on
the compile-time stack of ids, pushing the result id where the instruction
produces a value. The stack top is the list head. -/
def Instruction.applyToStack (instr : Instruction) (stack : List MirId)
    (result : MirId) : List MirId :=
  match instr with
  | .pushConstant _ => result :: stack
  | .pushFromStack _ => result :: stack
  | .popMultipleBelowTop n =>
    match stack with
    | [] => []
    | top :: rest => top :: rest.drop n
  | .createTag _ => result :: stack.drop 1
  | .createList n => result :: stack.drop n
  | .createStruct n => result :: stack.drop (2 * n)
  | .createFunction _ _ _ => result :: stack
  | .call n => result :: stack.drop (n + 2)
  | .tailCall m n => result :: stack.drop (m + n + 2)
  | .ret => stack
  | .panic => result :: stack.drop 2
  | .traceCallStarts n => stack.drop (n + 3)
  | .traceCallEnds => stack.drop 1
  | .traceExpressionEvaluated => stack.drop 2
  | .traceFoundFuzzableFunction => stack.drop 2

/-- The parts of `Lir` that `compile_function` touches. -/
structure LirState where
  instructions : List Instruction
  origins : List (List HirId)
  constantHeap : List InlineObject
deriving Repr

def LirState.empty : LirState :=
  { instructions := [], origins := [], constantHeap := [] }

/-- `LoweringContext`. -/
structure LoweringContext where
  lir : LirState
  constants : List (MirId × InlineObject)
  stack : List MirId
  instructions : List Instruction
deriving Repr

/-- `FxHashMap::get` on the constants map (an association list whose newest
entry wins, like hash-map insertion). -/
def lookupConstant (constants : List (MirId × InlineObject)) (id : MirId) :
    Option InlineObject :=
  match constants.find? fun p => p.1 == id with
  | none => none
  | some p => some p.2

def lookupConstants (constants : List (MirId × InlineObject)) :
    List MirId → Option (List InlineObject)
  | [] => some []
  | id :: rest =>
    match lookupConstant constants id with
    | none => none
    | some c =>
      match lookupConstants constants rest with
      | none => none
      | some cs => some (c :: cs)

def lookupConstantPairs (constants : List (MirId × InlineObject)) :
    List (MirId × MirId) → Option (List (InlineObject × InlineObject))
  | [] => some []
  | (k, v) :: rest =>
    match lookupConstant constants k, lookupConstant constants v with
    | some ck, some cv =>
      match lookupConstantPairs constants rest with
      | none => none
      | some cs => some ((ck, cv) :: cs)
    | _, _ => none

/-- `StackExt::find_id`: offset of an id from the stack top; the Rust
version panics when the id is missing, modelled by `none`. -/
def findId (stack : List MirId) (id : MirId) : Option Nat :=
  stack.indexOf? id

def findIds (stack : List MirId) : List MirId → Option (List Nat)
  | [] => some []
  | id :: rest =>
    match findId stack id with
    | none => none
    | some offset =>
      match findIds stack rest with
      | none => none
      | some offsets => some (offset :: offsets)

/-- Records a `create` into the constant heap. -/
def LoweringContext.createConstant (ctx : LoweringContext) (c : InlineObject) :
    LoweringContext :=
  { ctx with lir := { ctx.lir with constantHeap := ctx.lir.constantHeap ++ [c] } }

def LoweringContext.insertConstant (ctx : LoweringContext) (id : MirId)
    (c : InlineObject) : LoweringContext :=
  { ctx with constants := (id, c) :: ctx.constants }

def LoweringContext.createAndInsert (ctx : LoweringContext) (id : MirId)
    (c : InlineObject) : LoweringContext :=
  (ctx.createConstant c).insertConstant id c

/-- `LoweringContext::emit`. -/
def LoweringContext.emit (ctx : LoweringContext) (id : MirId)
    (instr : Instruction) : LoweringContext :=
  { ctx with
    stack := instr.applyToStack ctx.stack id
    instructions := ctx.instructions ++ [instr] }

/-- `LoweringContext::emit_reference_to`. -/
def LoweringContext.emitReferenceTo (ctx : LoweringContext) (id : MirId) :
    Option LoweringContext :=
  match lookupConstant ctx.constants id with
  | some c => some (ctx.emit id (.pushConstant c))
  | none =>
    match findId ctx.stack id with
    | some offset => some (ctx.emit id (.pushFromStack offset))
    | none => none

def LoweringContext.emitReferencesTo (ctx : LoweringContext) :
    List MirId → Option LoweringContext
  | [] => some ctx
  | id :: rest =>
    match ctx.emitReferenceTo id with
    | none => none
    | some ctx => ctx.emitReferencesTo rest

/-- References to each key and value of a struct, in field order. -/
def LoweringContext.emitFieldReferences (ctx : LoweringContext) :
    List (MirId × MirId) → Option LoweringContext
  | [] => some ctx
  | (k, v) :: rest =>
    match ctx.emitReferenceTo k with
    | none => none
    | some ctx =>
      match ctx.emitReferenceTo v with
      | none => none
      | some ctx => ctx.emitFieldReferences rest

/-- The tail of `compile_function` after the body loop: a trailing `Call` is
replaced by a `TailCall` popping all locals but one, otherwise
`PopMultipleBelowTop` of all locals but one followed by `Return` is emitted;
an empty instruction list models the `last().unwrap()` panic. -/
def epilogue (stack : List MirId) (instructions : List Instruction) :
    Option (List Instruction) :=
  match instructions.getLast? with
  | none => none
  | some (Instruction.call numArgs) =>
    some (instructions.dropLast ++
      [Instruction.tailCall (stack.length - 1) numArgs])
  | some _ =>
    some (instructions ++
      [Instruction.popMultipleBelowTop (stack.length - 1), Instruction.ret])

mutual

/-- `LoweringContext::compile_expression`. `capturedIds` stands for
`Expression::captured_ids`, defined in the absent `mir/body.rs`; `none`
models the `panic!` arms (`Parameter`, `UseModule`, `Multiple`) and the
other panics reachable through `find_id`, and fuel exhaustion. -/
def compileExpression : Nat → (Expression → List MirId) → LoweringContext →
    MirId → Expression → Option LoweringContext
  | 0, _, _, _, _ => none
  | fuel + 1, capturedIds, ctx, id, e =>
    match e with
    | .int value => some (ctx.createAndInsert id (.int value))
    | .text value => some (ctx.createAndInsert id (.text value))
    | .reference referenced =>
      match lookupConstant ctx.constants referenced with
      | some c => some (ctx.insertConstant id c)
      | none =>
        match findId ctx.stack referenced with
        | some offset => some (ctx.emit id (.pushFromStack offset))
        | none => none
    | .tag symbol value =>
      let ctx := ctx.createConstant (.text symbol)
      match value with
      | some v =>
        match lookupConstant ctx.constants v with
        | some c => some (ctx.createAndInsert id (.tag symbol (some c)))
        | none =>
          match ctx.emitReferenceTo v with
          | none => none
          | some ctx => some (ctx.emit id (.createTag symbol))
      | none => some (ctx.createAndInsert id (.tag symbol none))
    | .builtin b => some (ctx.insertConstant id (.builtin b))
    | .list items =>
      match lookupConstants ctx.constants items with
      | some cs => some (ctx.createAndInsert id (.list cs))
      | none =>
        match ctx.emitReferencesTo items with
        | none => none
        | some ctx => some (ctx.emit id (.createList items.length))
    | .struct_ fields =>
      match lookupConstantPairs ctx.constants fields with
      | some cs => some (ctx.createAndInsert id (.struct_ cs))
      | none =>
        match ctx.emitFieldReferences fields with
        | none => none
        | some ctx => some (ctx.emit id (.createStruct fields.length))
    | .hirId h => some (ctx.createAndInsert id (.hirId h))
    | .function originalHirs parameters responsibleParameter body =>
      let captured := (capturedIds e).filter
        fun c => (lookupConstant ctx.constants c).isNone
      match compileFunction fuel capturedIds ctx.lir ctx.constants originalHirs
          captured parameters responsibleParameter body with
      | none => none
      | some (start, lir, constants) =>
        let ctx := { ctx with lir := lir, constants := constants }
        if captured.isEmpty then
          some (ctx.createAndInsert id (.functionObj [] parameters.length start))
        else
          match ctx.emitReferencesTo captured with
          | none => none
          | some ctx =>
            match findIds ctx.stack captured with
            | none => none
            | some offsets =>
              some (ctx.emit id (.createFunction offsets parameters.length start))
    | .parameter => none
    | .call f args responsible =>
      match ctx.emitReferenceTo f with
      | none => none
      | some ctx =>
        match ctx.emitReferencesTo args with
        | none => none
        | some ctx =>
          match ctx.emitReferenceTo responsible with
          | none => none
          | some ctx => some (ctx.emit id (.call args.length))
    | .useModule _ _ _ => none
    | .panic reason responsible =>
      match ctx.emitReferenceTo reason with
      | none => none
      | some ctx =>
        match ctx.emitReferenceTo responsible with
        | none => none
        | some ctx => some (ctx.emit id .panic)
    | .multiple _ => none
    | .traceCallStarts hirCall f args responsible =>
      match ctx.emitReferenceTo hirCall with
      | none => none
      | some ctx =>
        match ctx.emitReferenceTo f with
        | none => none
        | some ctx =>
          match ctx.emitReferencesTo args with
          | none => none
          | some ctx =>
            match ctx.emitReferenceTo responsible with
            | none => none
            | some ctx => some (ctx.emit id (.traceCallStarts args.length))
    | .traceCallEnds returnValue =>
      match ctx.emitReferenceTo returnValue with
      | none => none
      | some ctx => some (ctx.emit id .traceCallEnds)
    | .traceExpressionEvaluated hirExpression value =>
      match ctx.emitReferenceTo hirExpression with
      | none => none
      | some ctx =>
        match ctx.emitReferenceTo value with
        | none => none
        | some ctx => some (ctx.emit id .traceExpressionEvaluated)
    | .traceFoundFuzzableFunction hirDefinition f =>
      match ctx.emitReferenceTo hirDefinition with
      | none => none
      | some ctx =>
        match ctx.emitReferenceTo f with
        | none => none
        | some ctx => some (ctx.emit id .traceFoundFuzzableFunction)

/-- The `for (id, expression) in body.iter()` loop of `compile_function`. -/
def compileExpressions : Nat → (Expression → List MirId) → LoweringContext →
    List (MirId × Expression) → Option LoweringContext
  | 0, _, _, _ => none
  | _ + 1, _, ctx, [] => some ctx
  | fuel + 1, capturedIds, ctx, (id, e) :: rest =>
    match compileExpression fuel capturedIds ctx id e with
    | none => none
    | some ctx => compileExpressions fuel capturedIds ctx rest

/-- `compile_function` up to (but not including) the trailing-call rewrite:
builds the initial stack from captured ids, parameters and the responsible
parameter, compiles the body, and pushes a reference to the body's return
value unless it is already on top of the stack. -/
def compileFunctionBody : Nat → (Expression → List MirId) → LirState →
    List (MirId × InlineObject) → List MirId → List MirId → MirId →
    List (MirId × Expression) → Option LoweringContext
  | 0, _, _, _, _, _, _, _ => none
  | fuel + 1, capturedIds, lir, constants, captured, parameters,
      responsibleParameter, body =>
    let stack := responsibleParameter ::
      parameters.foldl (fun s x => x :: s) (captured.foldl (fun s x => x :: s) [])
    let ctx : LoweringContext :=
      { lir := lir, constants := constants, stack := stack, instructions := [] }
    match compileExpressions fuel capturedIds ctx body with
    | none => none
    | some ctx =>
      match body.getLast? with
      | none => none
      | some (returnValue, _) =>
        match ctx.stack.head? with
        | none => none
        | some top =>
          if top = returnValue then some ctx else ctx.emitReferenceTo returnValue

/-- `compile_function`: body compilation followed by the epilogue, then the
function's instructions are appended to the LIR together with one origin
entry per instruction. -/
def compileFunction : Nat → (Expression → List MirId) → LirState →
    List (MirId × InlineObject) → List HirId → List MirId → List MirId →
    MirId → List (MirId × Expression) →
    Option (Nat × LirState × List (MirId × InlineObject))
  | 0, _, _, _, _, _, _, _, _ => none
  | fuel + 1, capturedIds, lir, constants, originalHirs, captured, parameters,
      responsibleParameter, body =>
    match compileFunctionBody fuel capturedIds lir constants captured
        parameters responsibleParameter body with
    | none => none
    | some ctx =>
      match epilogue ctx.stack ctx.instructions with
      | none => none
      | some instrs =>
        some (ctx.lir.instructions.length,
          { instructions := ctx.lir.instructions ++ instrs
            origins := ctx.lir.origins ++ List.replicate instrs.length originalHirs
            constantHeap := ctx.lir.constantHeap },
          ctx.constants)

end

/-- C3: in `compile_function`, when the last body instruction is
`Call{num_args}` it is replaced by `TailCall{num_locals_to_pop = stack height
minus one, num_args}`, and otherwise `PopMultipleBelowTop(stack height minus
one)` followed by `Return` is emitted; hence every compiled function body
ends either in a `TailCall` or in a `PopMultipleBelowTop`-then-`Return`
sequence. -/
theorem compileFunction_tail_call_spec
    (fuel : Nat) (capturedIds : Expression → List MirId) (lir : LirState)
    (constants : List (MirId × InlineObject)) (originalHirs : List HirId)
    (captured parameters : List MirId) (responsibleParameter : MirId)
    (body : List (MirId × Expression)) (start : Nat) (lir2 : LirState)
    (constants2 : List (MirId × InlineObject))
    (h : compileFunction (fuel + 1) capturedIds lir constants originalHirs
        captured parameters responsibleParameter body
        = some (start, lir2, constants2)) :
    ∃ ctx final,
      compileFunctionBody fuel capturedIds lir constants captured parameters
        responsibleParameter body = some ctx ∧
      epilogue ctx.stack ctx.instructions = some final ∧
      lir2.instructions = ctx.lir.instructions ++ final ∧
      ((∃ n, ctx.instructions.getLast? = some (Instruction.call n) ∧
          final = ctx.instructions.dropLast ++
            [Instruction.tailCall (ctx.stack.length - 1) n]) ∨
        ((∀ n, ctx.instructions.getLast? ≠ some (Instruction.call n)) ∧
          final = ctx.instructions ++
            [Instruction.popMultipleBelowTop (ctx.stack.length - 1),
              Instruction.ret])) ∧
      ((∃ m n, final.getLast? = some (Instruction.tailCall m n)) ∨
        (∃ m, final.getLast? = some Instruction.ret ∧
          final.dropLast.getLast? = some (Instruction.popMultipleBelowTop m))) := by
  rw [compileFunction] at h
  split at h
  · exact absurd h (by simp)
  next ctx hb =>
    split at h
    · exact absurd h (by simp)
    next final he =>
      simp only [Option.some.injEq, Prod.mk.injEq] at h
      obtain ⟨-, hlir, -⟩ := h
      subst hlir
      refine ⟨ctx, final, hb, he, rfl, ?_⟩
      rw [epilogue] at he
      split at he
      · exact absurd he (by simp)
      case h_2 numArgs heq =>
        rw [Option.some.injEq] at he
        subst he
        constructor
        · exact Or.inl ⟨numArgs, heq, rfl⟩
        · exact Or.inl ⟨ctx.stack.length - 1, numArgs, List.getLast?_concat _⟩
      case h_3 heq1 heq2 =>
        rw [Option.some.injEq] at he
        subst he
        constructor
        · refine Or.inr ⟨?_, rfl⟩
          intro n hcontra
          rw [heq2] at hcontra
          exact heq1 n (Option.some.inj hcontra)
        · refine Or.inr ⟨ctx.stack.length - 1, ?_, ?_⟩
          · rw [show ctx.instructions ++
                [Instruction.popMultipleBelowTop (ctx.stack.length - 1),
                  Instruction.ret]
              = (ctx.instructions ++
                  [Instruction.popMultipleBelowTop (ctx.stack.length - 1)]) ++
                [Instruction.ret] by simp]
            exact List.getLast?_concat _
          · rw [show ctx.instructions ++
                [Instruction.popMultipleBelowTop (ctx.stack.length - 1),
                  Instruction.ret]
              = (ctx.instructions ++
                  [Instruction.popMultipleBelowTop (ctx.stack.length - 1)]) ++
                [Instruction.ret] by simp]
            rw [List.dropLast_concat]
            exact List.getLast?_concat _

/-- The witness instantiates C3 on a one-expression body whose trailing call
becomes a tail call. -/
theorem compileFunction_tail_call_spec_witness :
    ∃ ctx final,
      compileFunctionBody 7 (fun _ => []) LirState.empty [] [] [(1 : MirId)]
        (2 : MirId) [((3 : MirId), Expression.call 1 [] 2)] = some ctx ∧
      epilogue ctx.stack ctx.instructions = some final ∧
      ({ instructions := [Instruction.pushFromStack 1, Instruction.pushFromStack 1,
          Instruction.tailCall 2 0], origins := [[], [], []],
          constantHeap := [] } : LirState).instructions
        = ctx.lir.instructions ++ final ∧
      ((∃ n, ctx.instructions.getLast? = some (Instruction.call n) ∧
          final = ctx.instructions.dropLast ++
            [Instruction.tailCall (ctx.stack.length - 1) n]) ∨
        ((∀ n, ctx.instructions.getLast? ≠ some (Instruction.call n)) ∧
          final = ctx.instructions ++
            [Instruction.popMultipleBelowTop (ctx.stack.length - 1),
              Instruction.ret])) ∧
      ((∃ m n, final.getLast? = some (Instruction.tailCall m n)) ∨
        (∃ m, final.getLast? = some Instruction.ret ∧
          final.dropLast.getLast? = some (Instruction.popMultipleBelowTop m))) :=
  compileFunction_tail_call_spec 7 (fun _ => []) LirState.empty [] [] []
    [(1 : MirId)] (2 : MirId) [((3 : MirId), Expression.call 1 [] 2)] 0
    { instructions := [Instruction.pushFromStack 1, Instruction.pushFromStack 1,
        Instruction.tailCall 2 0], origins := [[], [], []], constantHeap := [] }
    [] rfl

/-! ## HIR lowering (`ast_to_hir.rs`)

Translated from `src/compiler/frontend/src/ast_to_hir.rs`. The salsa `db` is
a collaborator; the span queries it answers are a parameter structure. The
mutually recursive `compile_single` is likewise passed in as a function
where the embedded fragment calls back into the rest of the lowering. -/

/-- Modelled from the spec: AST ids (the absent `ast.rs`) carry their module
(used by `lower_call` to fetch module content) plus an opaque number. -/
structure AstId where
  module : Module
  raw : Nat
deriving DecidableEq, Repr

structure AstString where
  id : AstId
  value : String
deriving DecidableEq, Repr

/-- Modelled from the spec: the AST node cases. Only the `Identifier`
payload matters to the embedded `lower_call` fragment (it decides the
`needs` dispatch); the other cases are handled by the abstract
`compile_single` and their payloads are elided. -/
inductive AstKind where
  | int (value : Int)
  | text
  | textPart (value : String)
  | identifier (name : AstString)
  | symbol (symbol : AstString)
  | list
  | struct_
  | structAccess
  | function
  | call
  | assignment
  | match_
  | matchCase
  | orPattern
  | error
deriving DecidableEq, Repr

structure Ast where
  id : AstId
  kind : AstKind
deriving DecidableEq, Repr

/-- `ast::Call` as consumed by `lower_call`. -/
structure AstCall where
  receiver : Ast
  arguments : List Ast
  isFromPipe : Bool
deriving DecidableEq, Repr

/-- Modelled from the spec: a small pattern type for `Destructure` (the
absent `hir.rs`); unused by the embedded fragments. -/
inductive HirPattern where
  | newIdentifier (id : Nat)
  | errorPattern
deriving DecidableEq, Repr

/-- Modelled from the spec: the HIR expression cases of section 3. Nested
bodies are inlined as expression lists; the identifier table lives in
`HirBody`. -/
inductive HirExpression where
  | int (value : Int)
  | text (value : String)
  | reference (id : HirId)
  | symbol (value : String)
  | list (items : List HirId)
  | struct_ (fields : List (HirId × HirId))
  | structAccess (struct_ : HirId) (key : String)
  | function (parameters : List HirId) (body : List (HirId × HirExpression))
      (fuzzable : Bool)
  | call (function : HirId) (arguments : List HirId)
  | useModule (currentModule : Module) (relativePath : HirId)
  | needs (condition : HirId) (reason : HirId)
  | match_ (scrutinee : HirId) (cases : List (HirPattern × List (HirId × HirExpression)))
  | destructure (expression : HirId) (pattern : HirPattern)
  | patternIdentifierReference (id : Nat)
  | builtin (function : BuiltinFunction)
  | error (child : Option HirId) (errors : List CompilerError)
deriving Repr

/-- `hir::Body`: ordered expressions plus the id-to-name identifier table. -/
structure HirBody where
  expressions : List (HirId × HirExpression)
  identifiers : List (HirId × String)
deriving Repr

def HirBody.empty : HirBody := { expressions := [], identifiers := [] }

def HirBody.push (b : HirBody) (id : HirId) (expression : HirExpression)
    (identifier : Option String) : HirBody :=
  { expressions := b.expressions ++ [(id, expression)]
    identifiers :=
      match identifier with
      | some name => b.identifiers ++ [(id, name)]
      | none => b.identifiers }

/-- The lowering `Context` (without the `db` handle, which is passed
separately). -/
structure Context where
  module : Module
  idMapping : List (HirId × Option AstId)
  publicIdentifiers : List (String × HirId)
  body : HirBody
  idPrefix : HirId
  identifiers : List (String × HirId)
  isTopLevel : Bool
  useId : Option HirId
deriving Repr

/-- The salsa queries `lower_call` and `compile_single` consult, as a
collaborator interface (spans are byte ranges). -/
structure AstDb where
  astIdToSpan : AstId → Option (Nat × Nat)
  astIdToDisplaySpan : AstId → Option (Nat × Nat)
  getModuleContentAsString : Module → Option String

/-- The key chosen by `create_next_id` for a disambiguator: with a key and
disambiguator 0 the bare name, otherwise the name with disambiguator (both
are `IdKey.named`); without a key the integer key. -/
def mkLastPart (key : Option String) (d : Nat) : IdKey :=
  match key with
  | some k => if d = 0 then IdKey.named k 0 else IdKey.named k d
  | none => IdKey.int d

def containsKeyHir (mapping : List (HirId × Option AstId)) (id : HirId) : Bool :=
  (mapping.find? fun p => p.1 == id).isSome

/-- `create_next_id`: the smallest disambiguator whose id is vacant in
`id_mapping`; the Rust loop is unbounded but by pigeonhole a vacant id
exists among the first `|id_mapping| + 1` candidates, so the bounded search
agrees with it wherever it terminates (`none` is unreachable). -/
def Context.createNextId (ctx : Context) (astId : Option AstId)
    (key : Option String) : Option (HirId × Context) :=
  match (List.range (ctx.idMapping.length + 1)).find? fun d =>
      !containsKeyHir ctx.idMapping (ctx.idPrefix.child (mkLastPart key d)) with
  | none => none
  | some d =>
    let id := ctx.idPrefix.child (mkLastPart key d)
    some (id, { ctx with idMapping := (id, astId) :: ctx.idMapping })

/-- `push_with_existing_id`. -/
def Context.pushWithExistingId (ctx : Context) (id : HirId)
    (expression : HirExpression) (identifier : Option String) : HirId × Context :=
  let ctx := { ctx with body := ctx.body.push id expression identifier }
  match identifier with
  | some name => (id, { ctx with identifiers := (name, id) :: ctx.identifiers })
  | none => (id, ctx)

/-- `push`. -/
def Context.push (ctx : Context) (astId : Option AstId)
    (expression : HirExpression) (identifier : Option String) :
    Option (HirId × Context) :=
  match ctx.createNextId astId identifier with
  | none => none
  | some (id, ctx) => some (ctx.pushWithExistingId id expression identifier)

/-- `push_error`. -/
def Context.pushError (ctx : Context) (astId : Option AstId)
    (span : Nat × Nat) (error : HirError) : Option (HirId × Context) :=
  ctx.push astId
    (.error none
      [{ module := ctx.module, spanStart := span.1, spanEnd := span.2,
         payload := CompilerErrorPayload.hir error }])
    none

/-- `lower_call_arguments`: compiles each argument in order. -/
def lowerCallArguments (compileSingle : Context → Ast → Option (HirId × Context)) :
    Context → List Ast → Option (List HirId × Context)
  | ctx, [] => some ([], ctx)
  | ctx, argument :: rest =>
    match compileSingle ctx argument with
    | none => none
    | some (hir, ctx) =>
      match lowerCallArguments compileSingle ctx rest with
      | none => none
      | some (hirs, ctx) => some (hir :: hirs, ctx)

/-- The pipe prelude of `lower_call`: a call generated from the pipe
operator compiles its first argument up front (`none` models the `panic!`
on a pipe call without arguments). -/
def lowerCallPipePrefix (compileSingle : Context → Ast → Option (HirId × Context))
    (ctx : Context) (call : AstCall) :
    Option (List HirId × List Ast × Context) :=
  if call.isFromPipe then
    match call.arguments with
    | [] => none
    | firstArgument :: remaining =>
      match compileSingle ctx firstArgument with
      | none => none
      | some (hir, ctx) => some ([hir], remaining, ctx)
  else
    some ([], call.arguments, ctx)

/-- Rust's byte slicing of the module content (strings are modelled as
character lists, so the span indexes characters). -/
def sliceString (s : String) (start stop : Nat) : String :=
  ((s.toList.drop start).take (stop - start)).asString

/-- The synthesized reason text of a one-argument `needs`. -/
def needsReasonText (db : AstDb) (argument : Ast) : Option String :=
  match db.astIdToSpan argument.id with
  | some span =>
    match db.getModuleContentAsString argument.id.module with
    | none => none
    | some content =>
      some ("`" ++ sliceString content span.1 span.2 ++ "` was not satisfied")
  | none => some "the needs of a function were not met"

/-- The receiver-was-not-`needs` tail of `lower_call`. -/
def lowerCallNormal (compileSingle : Context → Ast → Option (HirId × Context))
    (ctx : Context) (id : Option AstId) (call : AstCall)
    (pipeArguments : List HirId) (uncompiledArguments : List Ast) :
    Option (HirId × Context) :=
  match compileSingle ctx call.receiver with
  | none => none
  | some (function, ctx) =>
    match lowerCallArguments compileSingle ctx uncompiledArguments with
    | none => none
    | some (rest, ctx) =>
      ctx.push id (.call function (pipeArguments ++ rest)) none

/-- `lower_call`. -/
def lowerCall (db : AstDb)
    (compileSingle : Context → Ast → Option (HirId × Context))
    (ctx : Context) (id : Option AstId) (call : AstCall) :
    Option (HirId × Context) :=
  match lowerCallPipePrefix compileSingle ctx call with
  | none => none
  | some (pipeArguments, uncompiledArguments, ctx) =>
    match call.receiver.kind with
    | AstKind.identifier name =>
      if name.value = "needs" then
        match lowerCallArguments compileSingle ctx call.arguments with
        | none => none
        | some (compiledArguments, ctx) =>
          match compiledArguments with
          | [condition, reason] => ctx.push id (.needs condition reason) none
          | [condition] =>
            match call.arguments with
            | [] => none
            | firstArgument :: _ =>
              match needsReasonText db firstArgument with
              | none => none
              | some text =>
                match ctx.push none (.text text) none with
                | none => none
                | some (reason, ctx) => ctx.push id (.needs condition reason) none
          | _ =>
            match db.astIdToSpan name.id with
            | none => none
            | some span =>
              ctx.pushError id span
                (.needsWithWrongNumberOfArguments call.arguments.length)
      else
        lowerCallNormal compileSingle ctx id call pipeArguments
          uncompiledArguments
    | _ =>
      lowerCallNormal compileSingle ctx id call pipeArguments
        uncompiledArguments

/-! ### Public assignments -/

def containsPublicName (publicIdentifiers : List (String × HirId))
    (name : String) : Bool :=
  (publicIdentifiers.find? fun p => p.1 == name).isSome

/-- The `for (name, id) in names` loop of the top-level public-assignment
branch in `compile_single`: a name already present in the public-export
table pushes a `PublicAssignmentWithSameName` error; either way the name is
then inserted. -/
def handlePublicNames (db : AstDb) : Context → AstId → List (String × HirId) →
    Option Context
  | ctx, _, [] => some ctx
  | ctx, astId, (name, id) :: rest =>
    if containsPublicName ctx.publicIdentifiers name then
      match db.astIdToDisplaySpan astId with
      | none => none
      | some span =>
        match ctx.pushError none span (.publicAssignmentWithSameName name) with
        | none => none
        | some (_, ctx) =>
          handlePublicNames db
            { ctx with publicIdentifiers := (name, id) :: ctx.publicIdentifiers }
            astId rest
    else
      handlePublicNames db
        { ctx with publicIdentifiers := (name, id) :: ctx.publicIdentifiers }
        astId rest

/-- The `if *is_public` block of the assignment arm of `compile_single`
(lines 300 to 321 of `ast_to_hir.rs`). -/
def handlePublicAssignment (db : AstDb) (ctx : Context) (astId : AstId)
    (isPublic : Bool) (names : List (String × HirId)) : Option Context :=
  if isPublic then
    if ctx.isTopLevel then
      handlePublicNames db ctx astId names
    else
      match db.astIdToDisplaySpan astId with
      | none => none
      | some span =>
        match ctx.pushError none span .publicAssignmentInNotTopLevel with
        | none => none
        | some (_, ctx) => some ctx
  else
    some ctx

lemma Context.createNextId_spec (ctx : Context) (astId : Option AstId)
    (key : Option String) (id : HirId) (ctx3 : Context)
    (h : ctx.createNextId astId key = some (id, ctx3)) :
    ctx3.body = ctx.body ∧ ctx3.module = ctx.module ∧
    ctx3.isTopLevel = ctx.isTopLevel ∧
    ctx3.publicIdentifiers = ctx.publicIdentifiers := by
  rw [Context.createNextId] at h
  split at h
  · exact absurd h (by simp)
  · simp only [Option.some.injEq, Prod.mk.injEq] at h
    obtain ⟨-, rfl⟩ := h
    exact ⟨rfl, rfl, rfl, rfl⟩

lemma Context.push_spec (ctx : Context) (astId : Option AstId)
    (e : HirExpression) (identifier : Option String) (id : HirId)
    (ctx2 : Context) (h : ctx.push astId e identifier = some (id, ctx2)) :
    ctx2.body.expressions = ctx.body.expressions ++ [(id, e)] ∧
    ctx2.module = ctx.module ∧ ctx2.isTopLevel = ctx.isTopLevel ∧
    ctx2.publicIdentifiers = ctx.publicIdentifiers := by
  rw [Context.push] at h
  split at h
  · exact absurd h (by simp)
  next newId ctx3 heq =>
    obtain ⟨hb, hm, ht, hp⟩ :=
      Context.createNextId_spec ctx astId identifier newId ctx3 heq
    cases identifier with
    | none =>
      simp only [Context.pushWithExistingId, Option.some.injEq,
        Prod.mk.injEq] at h
      obtain ⟨rfl, rfl⟩ := h
      refine ⟨?_, hm, ht, hp⟩
      show (ctx3.body.push newId e none).expressions = _
      rw [HirBody.push, hb]
    | some name =>
      simp only [Context.pushWithExistingId, Option.some.injEq,
        Prod.mk.injEq] at h
      obtain ⟨rfl, rfl⟩ := h
      refine ⟨?_, hm, ht, hp⟩
      show (ctx3.body.push newId e (some name)).expressions = _
      rw [HirBody.push, hb]

lemma Context.pushError_spec (ctx : Context) (astId : Option AstId)
    (span : Nat × Nat) (error : HirError) (id : HirId) (ctx2 : Context)
    (h : ctx.pushError astId span error = some (id, ctx2)) :
    ctx2.body.expressions = ctx.body.expressions ++
      [(id, HirExpression.error none
        [{ module := ctx.module, spanStart := span.1, spanEnd := span.2,
           payload := CompilerErrorPayload.hir error }])] ∧
    ctx2.module = ctx.module ∧ ctx2.isTopLevel = ctx.isTopLevel ∧
    ctx2.publicIdentifiers = ctx.publicIdentifiers :=
  Context.push_spec ctx astId _ none id ctx2 h

lemma lowerCallArguments_length
    (compileSingle : Context → Ast → Option (HirId × Context)) :
    ∀ (args : List Ast) (ctx : Context) (hirs : List HirId) (ctx1 : Context),
      lowerCallArguments compileSingle ctx args = some (hirs, ctx1) →
      hirs.length = args.length := by
  intro args
  induction args with
  | nil =>
    intro ctx hirs ctx1 h
    simp only [lowerCallArguments, Option.some.injEq, Prod.mk.injEq] at h
    obtain ⟨rfl, -⟩ := h
    rfl
  | cons a rest ih =>
    intro ctx hirs ctx1 h
    rw [lowerCallArguments] at h
    split at h
    · exact absurd h (by simp)
    next hir ctx3 heq =>
      split at h
      · exact absurd h (by simp)
      next hirs2 ctx4 heq2 =>
        simp only [Option.some.injEq, Prod.mk.injEq] at h
        obtain ⟨rfl, -⟩ := h
        simp [ih ctx3 hirs2 ctx4 heq2]

/-- C4: lowering a call whose receiver is the identifier `needs` produces,
with exactly two arguments, a `Needs` with the given condition and reason;
with exactly one argument, a `Needs` whose reason is a synthesized `Text`;
and with any other argument count an `Error` of kind
`NeedsWithWrongNumberOfArguments` recording the number of arguments. -/
theorem lowerCall_needs_spec (db : AstDb)
    (compileSingle : Context → Ast → Option (HirId × Context))
    (ctx : Context) (id : Option AstId) (call : AstCall) (nameId : AstId)
    (resultId : HirId) (ctx' : Context)
    (hrecv : call.receiver.kind = AstKind.identifier ⟨nameId, "needs"⟩)
    (h : lowerCall db compileSingle ctx id call = some (resultId, ctx')) :
    ∃ pipeArguments uncompiledArguments ctx0 compiledArguments ctx1,
      lowerCallPipePrefix compileSingle ctx call
        = some (pipeArguments, uncompiledArguments, ctx0) ∧
      lowerCallArguments compileSingle ctx0 call.arguments
        = some (compiledArguments, ctx1) ∧
      compiledArguments.length = call.arguments.length ∧
      (call.arguments.length = 2 →
        ∃ condition reason, compiledArguments = [condition, reason] ∧
          ctx'.body.expressions = ctx1.body.expressions ++
            [(resultId, HirExpression.needs condition reason)]) ∧
      (call.arguments.length = 1 →
        ∃ condition reasonId text, compiledArguments = [condition] ∧
          ctx'.body.expressions = ctx1.body.expressions ++
            [(reasonId, HirExpression.text text),
              (resultId, HirExpression.needs condition reasonId)]) ∧
      (call.arguments.length ≠ 1 → call.arguments.length ≠ 2 →
        ∃ span, db.astIdToSpan nameId = some span ∧
          ctx'.body.expressions = ctx1.body.expressions ++
            [(resultId, HirExpression.error none
              [{ module := ctx1.module, spanStart := span.1,
                 spanEnd := span.2,
                 payload := CompilerErrorPayload.hir
                   (HirError.needsWithWrongNumberOfArguments
                     call.arguments.length) }])]) := by
  cases hpipe : lowerCallPipePrefix compileSingle ctx call with
  | none => simp [lowerCall, hpipe] at h
  | some triple =>
    obtain ⟨pipeArguments, uncompiledArguments, ctx0⟩ := triple
    simp only [lowerCall, hpipe, hrecv, if_true] at h
    split at h
    · simp at h
    next compiledArguments ctx1 hargs =>
      have hlen := lowerCallArguments_length compileSingle call.arguments ctx0
        compiledArguments ctx1 hargs
      refine ⟨pipeArguments, uncompiledArguments, ctx0, compiledArguments,
        ctx1, rfl, hargs, hlen, ?_⟩
      split at h
      case h_1 =>
        rename_i condition reason
        obtain ⟨hbody, -, -, -⟩ :=
          Context.push_spec ctx1 id _ none resultId ctx' h
        refine ⟨?_, ?_, ?_⟩
        · intro _
          exact ⟨condition, reason, rfl, hbody⟩
        · intro h1
          rw [← hlen] at h1
          simp at h1
        · intro h1 h2
          rw [← hlen] at h2
          simp at h2
      case h_2 =>
        rename_i condition
        split at h
        · exact absurd h (by simp)
        next firstArgument restArguments =>
          split at h
          · exact absurd h (by simp)
          next text htext =>
            split at h
            · exact absurd h (by simp)
            next reasonId ctx2 hreason =>
              obtain ⟨hbody2, -, -, -⟩ :=
                Context.push_spec ctx1 none _ none reasonId ctx2 hreason
              obtain ⟨hbody3, -, -, -⟩ :=
                Context.push_spec ctx2 id _ none resultId ctx' h
              refine ⟨?_, ?_, ?_⟩
              · intro h2
                rw [← hlen] at h2
                simp at h2
              · intro _
                refine ⟨condition, reasonId, text, rfl, ?_⟩
                rw [hbody3, hbody2, List.append_assoc]
                rfl
              · intro h1 _
                rw [← hlen] at h1
                simp at h1
      case h_3 =>
        rename_i hnePair hneSingle
        split at h
        · exact absurd h (by simp)
        next span hspan =>
          obtain ⟨hbody, -, -, -⟩ :=
            Context.pushError_spec ctx1 id span _ resultId ctx' h
          refine ⟨?_, ?_, ?_⟩
          · intro h2
            rw [← hlen] at h2
            obtain ⟨c, rest, rfl⟩ : ∃ c rest, compiledArguments = c :: rest := by
              cases compiledArguments with
              | nil => simp at h2
              | cons c rest => exact ⟨c, rest, rfl⟩
            obtain ⟨r, rest2, rfl⟩ : ∃ r rest2, rest = r :: rest2 := by
              cases rest with
              | nil => simp at h2
              | cons r rest2 => exact ⟨r, rest2, rfl⟩
            obtain rfl : rest2 = [] := by
              cases rest2 with
              | nil => rfl
              | cons x xs => simp at h2
            exact absurd rfl (fun hcontra => hnePair c r hcontra)
          · intro h1
            rw [← hlen] at h1
            obtain ⟨c, rest, rfl⟩ : ∃ c rest, compiledArguments = c :: rest := by
              cases compiledArguments with
              | nil => simp at h1
              | cons c rest => exact ⟨c, rest, rfl⟩
            obtain rfl : rest = [] := by
              cases rest with
              | nil => rfl
              | cons x xs => simp at h1
            exact absurd rfl (fun hcontra => hneSingle c hcontra)
          · intro _ _
            exact ⟨span, hspan, hbody⟩

lemma handlePublicNames_body_prefix (db : AstDb) :
    ∀ (names : List (String × HirId)) (ctx : Context) (astId : AstId)
      (ctx' : Context), handlePublicNames db ctx astId names = some ctx' →
      ∃ suffix, ctx'.body.expressions = ctx.body.expressions ++ suffix := by
  intro names
  induction names with
  | nil =>
    intro ctx astId ctx' h
    simp only [handlePublicNames, Option.some.injEq] at h
    subst h
    exact ⟨[], by simp⟩
  | cons pair rest ih =>
    intro ctx astId ctx' h
    obtain ⟨name, id⟩ := pair
    rw [handlePublicNames] at h
    split at h
    · split at h
      · exact absurd h (by simp)
      next span hspan =>
        split at h
        · exact absurd h (by simp)
        next errorId ctx2 herr =>
          obtain ⟨hbody, -, -, -⟩ :=
            Context.pushError_spec ctx none span _ errorId ctx2 herr
          obtain ⟨suffix, hsuffix⟩ := ih _ astId ctx' h
          refine ⟨(errorId, HirExpression.error none
            [{ module := ctx.module, spanStart := span.1, spanEnd := span.2,
               payload := CompilerErrorPayload.hir
                 (HirError.publicAssignmentWithSameName name) }]) :: suffix, ?_⟩
          rw [hsuffix]
          show ctx2.body.expressions ++ suffix = _
          rw [hbody]
          simp
    · obtain ⟨suffix, hsuffix⟩ := ih _ astId ctx' h
      exact ⟨suffix, hsuffix⟩

/-- C5: HIR lowering rejects a public assignment below the top level by
pushing an `Error` of kind `PublicAssignmentInNotTopLevel` (leaving the
public-export table unchanged), and rejects a public assignment whose name
is already in the public-export table by pushing an `Error` of kind
`PublicAssignmentWithSameName`; the rejected duplicate's error remains
recorded in the resulting body. -/
theorem handlePublicAssignment_spec (db : AstDb) (ctx : Context)
    (astId : AstId) (ctx' : Context) :
    (ctx.isTopLevel = false →
      ∀ names, handlePublicAssignment db ctx astId true names = some ctx' →
      ∃ (span : Nat × Nat) (errorId : HirId),
        db.astIdToDisplaySpan astId = some span ∧
        ctx'.body.expressions = ctx.body.expressions ++
          [(errorId, HirExpression.error none
            [{ module := ctx.module, spanStart := span.1, spanEnd := span.2,
               payload := CompilerErrorPayload.hir
                 HirError.publicAssignmentInNotTopLevel }])] ∧
        ctx'.publicIdentifiers = ctx.publicIdentifiers) ∧
    (ctx.isTopLevel = true →
      ∀ (name : String) (nameId : HirId) (rest : List (String × HirId)),
        containsPublicName ctx.publicIdentifiers name = true →
        handlePublicAssignment db ctx astId true ((name, nameId) :: rest)
          = some ctx' →
        ∃ (span : Nat × Nat) (errorId : HirId) (ctxMid : Context),
          db.astIdToDisplaySpan astId = some span ∧
          ctxMid.body.expressions = ctx.body.expressions ++
            [(errorId, HirExpression.error none
              [{ module := ctx.module, spanStart := span.1,
                 spanEnd := span.2,
                 payload := CompilerErrorPayload.hir
                   (HirError.publicAssignmentWithSameName name) }])] ∧
          handlePublicNames db
            { ctxMid with
              publicIdentifiers := (name, nameId) :: ctxMid.publicIdentifiers }
            astId rest = some ctx' ∧
          (errorId, HirExpression.error none
            [{ module := ctx.module, spanStart := span.1, spanEnd := span.2,
               payload := CompilerErrorPayload.hir
                 (HirError.publicAssignmentWithSameName name) }])
            ∈ ctx'.body.expressions) := by
  constructor
  · intro hTop names h
    rw [handlePublicAssignment, if_pos rfl, hTop] at h
    simp only [Bool.false_eq_true, if_false] at h
    split at h
    · exact absurd h (by simp)
    next span hspan =>
      split at h
      · exact absurd h (by simp)
      next errorId ctx2 herr =>
        obtain ⟨hbody, -, -, hpub⟩ :=
          Context.pushError_spec ctx none span _ errorId ctx2 herr
        simp only [Option.some.injEq] at h
        subst h
        exact ⟨span, errorId, hspan, hbody, hpub⟩
  · intro hTop name nameId rest hdup h
    rw [handlePublicAssignment, if_pos rfl, hTop] at h
    simp only [if_true] at h
    rw [handlePublicNames, hdup] at h
    simp only [if_true] at h
    split at h
    · exact absurd h (by simp)
    next span hspan =>
      split at h
      · exact absurd h (by simp)
      next errorId ctx2 herr =>
        obtain ⟨hbody, -, -, -⟩ :=
          Context.pushError_spec ctx none span _ errorId ctx2 herr
        obtain ⟨suffix, hsuffix⟩ := handlePublicNames_body_prefix db rest
          { ctx2 with publicIdentifiers := (name, nameId) :: ctx2.publicIdentifiers }
          astId ctx' h
        refine ⟨span, errorId, ctx2, hspan, hbody, h, ?_⟩
        rw [hsuffix]
        show _ ∈ ctx2.body.expressions ++ suffix
        rw [hbody]
        simp

/-! ### Witness data for the HIR-lowering theorems -/

def c4Module : Module := ⟨⟨"pkg"⟩, [], .code⟩

def c4Db : AstDb := ⟨fun _ => some (0, 1), fun _ => some (0, 1), fun _ => some "x"⟩

def c4CompileSingle : Context → Ast → Option (HirId × Context) :=
  fun ctx _ => some (HirId.new c4Module [], ctx)

def c4Ctx : Context :=
  { module := c4Module, idMapping := [], publicIdentifiers := [],
    body := HirBody.empty, idPrefix := HirId.new c4Module [],
    identifiers := [], isTopLevel := true, useId := none }

def c4Call : AstCall :=
  { receiver := ⟨⟨c4Module, 0⟩, .identifier ⟨⟨c4Module, 1⟩, "needs"⟩⟩,
    arguments := [⟨⟨c4Module, 2⟩, .int 1⟩, ⟨⟨c4Module, 3⟩, .int 2⟩],
    isFromPipe := false }

def c4ResultId : HirId := ⟨c4Module, [IdKey.int 0]⟩

def c4CtxOut : Context :=
  { module := c4Module, idMapping := [(c4ResultId, none)],
    publicIdentifiers := [],
    body :=
      { expressions := [(c4ResultId, HirExpression.needs
          (HirId.new c4Module []) (HirId.new c4Module []))]
        identifiers := [] }
    idPrefix := HirId.new c4Module [], identifiers := [], isTopLevel := true,
    useId := none }

/-- The witness instantiates C4 on a two-argument `needs` call. -/
theorem lowerCall_needs_spec_witness :
    ∃ pipeArguments uncompiledArguments ctx0 compiledArguments ctx1,
      lowerCallPipePrefix c4CompileSingle c4Ctx c4Call
        = some (pipeArguments, uncompiledArguments, ctx0) ∧
      lowerCallArguments c4CompileSingle ctx0 c4Call.arguments
        = some (compiledArguments, ctx1) ∧
      compiledArguments.length = c4Call.arguments.length ∧
      (c4Call.arguments.length = 2 →
        ∃ condition reason, compiledArguments = [condition, reason] ∧
          c4CtxOut.body.expressions = ctx1.body.expressions ++
            [(c4ResultId, HirExpression.needs condition reason)]) ∧
      (c4Call.arguments.length = 1 →
        ∃ condition reasonId text, compiledArguments = [condition] ∧
          c4CtxOut.body.expressions = ctx1.body.expressions ++
            [(reasonId, HirExpression.text text),
              (c4ResultId, HirExpression.needs condition reasonId)]) ∧
      (c4Call.arguments.length ≠ 1 → c4Call.arguments.length ≠ 2 →
        ∃ span, c4Db.astIdToSpan ⟨c4Module, 1⟩ = some span ∧
          c4CtxOut.body.expressions = ctx1.body.expressions ++
            [(c4ResultId, HirExpression.error none
              [{ module := ctx1.module, spanStart := span.1,
                 spanEnd := span.2,
                 payload := CompilerErrorPayload.hir
                   (HirError.needsWithWrongNumberOfArguments
                     c4Call.arguments.length) }])]) :=
  lowerCall_needs_spec c4Db c4CompileSingle c4Ctx none c4Call ⟨c4Module, 1⟩
    c4ResultId c4CtxOut rfl rfl

def c5CtxA : Context := { c4Ctx with isTopLevel := false }

def c5CtxOutA : Context :=
  { module := c4Module, idMapping := [(⟨c4Module, [IdKey.int 0]⟩, none)],
    publicIdentifiers := [],
    body :=
      { expressions := [(⟨c4Module, [IdKey.int 0]⟩,
          HirExpression.error none
            [{ module := c4Module, spanStart := 0, spanEnd := 1,
               payload := CompilerErrorPayload.hir
                 HirError.publicAssignmentInNotTopLevel }])]
        identifiers := [] }
    idPrefix := HirId.new c4Module [], identifiers := [], isTopLevel := false,
    useId := none }

def c5CtxB : Context :=
  { c4Ctx with publicIdentifiers := [("foo", HirId.new c4Module [])] }

def c5CtxOutB : Context :=
  { module := c4Module, idMapping := [(⟨c4Module, [IdKey.int 0]⟩, none)],
    publicIdentifiers := [("foo", ⟨c4Module, [IdKey.named "foo" 0]⟩),
      ("foo", HirId.new c4Module [])],
    body :=
      { expressions := [(⟨c4Module, [IdKey.int 0]⟩,
          HirExpression.error none
            [{ module := c4Module, spanStart := 0, spanEnd := 1,
               payload := CompilerErrorPayload.hir
                 (HirError.publicAssignmentWithSameName "foo") }])]
        identifiers := [] }
    idPrefix := HirId.new c4Module [], identifiers := [], isTopLevel := true,
    useId := none }

/-- The witness instantiates C5 on a non-top-level public assignment and on
a duplicate top-level public name. -/
theorem handlePublicAssignment_spec_witness :
    (∃ (span : Nat × Nat) (errorId : HirId),
      c4Db.astIdToDisplaySpan ⟨c4Module, 0⟩ = some span ∧
      c5CtxOutA.body.expressions = c5CtxA.body.expressions ++
        [(errorId, HirExpression.error none
          [{ module := c5CtxA.module, spanStart := span.1, spanEnd := span.2,
             payload := CompilerErrorPayload.hir
               HirError.publicAssignmentInNotTopLevel }])] ∧
      c5CtxOutA.publicIdentifiers = c5CtxA.publicIdentifiers) ∧
    (∃ (span : Nat × Nat) (errorId : HirId) (ctxMid : Context),
      c4Db.astIdToDisplaySpan ⟨c4Module, 0⟩ = some span ∧
      ctxMid.body.expressions = c5CtxB.body.expressions ++
        [(errorId, HirExpression.error none
          [{ module := c5CtxB.module, spanStart := span.1, spanEnd := span.2,
             payload := CompilerErrorPayload.hir
               (HirError.publicAssignmentWithSameName "foo") }])] ∧
      handlePublicNames c4Db
        { ctxMid with publicIdentifiers :=
            ("foo", (⟨c4Module, [IdKey.named "foo" 0]⟩ : HirId))
              :: ctxMid.publicIdentifiers }
        ⟨c4Module, 0⟩ [] = some c5CtxOutB ∧
      (errorId, HirExpression.error none
        [{ module := c5CtxB.module, spanStart := span.1, spanEnd := span.2,
           payload := CompilerErrorPayload.hir
             (HirError.publicAssignmentWithSameName "foo") }])
        ∈ c5CtxOutB.body.expressions) :=
  ⟨(handlePublicAssignment_spec c4Db c5CtxA ⟨c4Module, 0⟩ c5CtxOutA).1 rfl
      [("foo", HirId.new c4Module [])] rfl,
    (handlePublicAssignment_spec c4Db c5CtxB ⟨c4Module, 0⟩ c5CtxOutB).2 rfl
      "foo" ⟨c4Module, [IdKey.named "foo" 0]⟩ [] rfl rfl⟩

/-! ## Tree shaking (older codebase)

Translated from `src/compiler/src/compiler/optimize/tree_shaking.rs`. That
revision's `mir.rs` is absent from `src/`, so its `Expression` is modelled
from the spec as exactly the three attributes `tree_shake` consults: the
purity flag (`Expression::is_pure`), the referenced ids
(`Expression::referenced_ids`), and the nested body of a `Lambda`. The
`HashSet<Id>` `keep` is a list with membership semantics. -/

abbrev OldId := Nat

/-- Modelled from the spec: an expression of the older MIR, reduced to what
`tree_shake` consults. -/
inductive OldExpression where
  | lambda (referencedIds : List OldId) (isPure : Bool)
      (body : List (OldId × OldExpression))
  | simple (referencedIds : List OldId) (isPure : Bool)

/-- `Expression::is_pure`. -/
def OldExpression.isPure : OldExpression → Bool
  | .lambda _ p _ => p
  | .simple _ p => p

/-- `Expression::referenced_ids`. -/
def OldExpression.referencedIds : OldExpression → List OldId
  | .lambda refs _ _ => refs
  | .simple refs _ => refs

mutual

/-- All ids an expression mentions anywhere: its referenced ids plus, inside
nested lambda bodies, defined ids and their mentions. -/
def mentionsExpr : OldExpression → List OldId
  | .simple refs _ => refs
  | .lambda refs _ body => refs ++ mentionsBody body

def mentionsBody : List (OldId × OldExpression) → List OldId
  | [] => []
  | (id, e) :: rest => id :: (mentionsExpr e ++ mentionsBody rest)

end

mutual

/-- Every referenced id of every entry (at any nesting depth) is in `keep`. -/
def refsClosedExpr (keep : List OldId) : OldExpression → Bool
  | .simple refs _ => refs.all fun r => keep.contains r
  | .lambda refs _ body =>
    (refs.all fun r => keep.contains r) && refsClosedBody keep body

def refsClosedBody (keep : List OldId) : List (OldId × OldExpression) → Bool
  | [] => true
  | (_, e) :: rest => refsClosedExpr keep e && refsClosedBody keep rest

end

/-- An id mentions only strictly smaller ids. -/
def belowBound (n : OldId) (e : OldExpression) : Bool :=
  (mentionsExpr e).all fun r => r < n

/-- The SSA discipline of the spec in processing (reverse) order: every
entry's id is strictly larger than the ids of all entries processed after it
(earlier in the body), and those entries mention only smaller ids. -/
def wfRev : List (OldId × OldExpression) → Bool
  | [] => true
  | (id, _) :: rest =>
    (rest.all fun p => decide (p.1 < id) && belowBound id p.2) && wfRev rest

mutual

/-- The `for (id, expression) in body.into_iter().rev()` loop of
`Body::tree_shake`: entries arrive in reverse order; a kept entry inserts
its id and referenced ids into `keep` and, if it is a lambda, tree-shakes
its nested body with the shared `keep`; a pure unkept entry is dropped
(collected into `ids_to_remove` and removed after the loop). Fuel
exhaustion is `none`. -/
def shakeRev : Nat → List (OldId × OldExpression) → List OldId →
    Option (List (OldId × OldExpression) × List OldId)
  | 0, _, _ => none
  | _ + 1, [], keep => some ([], keep)
  | fuel + 1, (id, e) :: rest, keep =>
    if !e.isPure || keep.contains id then
      let keep := id :: (e.referencedIds ++ keep)
      match e with
      | .lambda refs p body =>
        match shakeBody fuel body keep with
        | none => none
        | some (body2, keep2) =>
          match shakeRev fuel rest keep2 with
          | none => none
          | some (rest2, keep3) =>
            some ((id, .lambda refs p body2) :: rest2, keep3)
      | .simple refs p =>
        match shakeRev fuel rest keep with
        | none => none
        | some (rest2, keep2) => some ((id, .simple refs p) :: rest2, keep2)
    else
      match shakeRev fuel rest keep with
      | none => none
      | some (rest2, keep2) => some (rest2, keep2)

/-- `Body::tree_shake`: inserts the return value id (the last entry's id;
`none` models the `unwrap` panic on an empty body) and processes the entries
in reverse. -/
def shakeBody : Nat → List (OldId × OldExpression) → List OldId →
    Option (List (OldId × OldExpression) × List OldId)
  | 0, _, _ => none
  | fuel + 1, body, keep =>
    match body.getLast? with
    | none => none
    | some (returnId, _) =>
      match shakeRev fuel body.reverse (returnId :: keep) with
      | none => none
      | some (revKept, keep2) => some (revKept.reverse, keep2)

end

/-- `Mir::tree_shake`: tree-shakes the whole body starting from an empty
`keep` set. -/
def tree_shake (fuel : Nat) (body : List (OldId × OldExpression)) :
    Option (List (OldId × OldExpression) × List OldId) :=
  shakeBody fuel body []

theorem contains_iff (l : List OldId) (x : OldId) : l.contains x = true ↔ x ∈ l :=
  List.elem_iff

theorem mentionsBody_append :
    ∀ a b : List (OldId × OldExpression),
      mentionsBody (a ++ b) = mentionsBody a ++ mentionsBody b
  | [], _ => rfl
  | (id, e) :: rest, b => by
    show id :: (mentionsExpr e ++ mentionsBody (rest ++ b)) =
      mentionsBody ((id, e) :: rest) ++ mentionsBody b
    rw [mentionsBody_append rest b]
    simp [mentionsBody, List.append_assoc]

theorem mem_mentionsBody_reverse (x : OldId) :
    ∀ l : List (OldId × OldExpression),
      x ∈ mentionsBody l.reverse ↔ x ∈ mentionsBody l
  | [] => Iff.rfl
  | (id, e) :: rest => by
    rw [List.reverse_cons, mentionsBody_append]
    simp only [List.mem_append, mem_mentionsBody_reverse x rest, mentionsBody,
      List.mem_cons, List.not_mem_nil, or_false, List.append_nil]
    tauto

theorem getLast?_mem_mentionsBody :
    ∀ (l : List (OldId × OldExpression)) (id : OldId) (e : OldExpression),
      l.getLast? = some (id, e) → id ∈ mentionsBody l
  | [], _, _, h => by simp at h
  | [(i, f)], id, e, h => by
    simp only [List.getLast?_singleton, Option.some.injEq, Prod.mk.injEq] at h
    simp [mentionsBody, h.1]
  | (i, f) :: (j, g) :: rest, id, e, h => by
    have hmem := getLast?_mem_mentionsBody ((j, g) :: rest) id e h
    simp only [mentionsBody, List.mem_cons, List.mem_append] at hmem ⊢
    tauto

theorem refsClosedBody_iff (keep : List OldId) :
    ∀ b, refsClosedBody keep b = true ↔ ∀ p ∈ b, refsClosedExpr keep p.2 = true
  | [] => by simp [refsClosedBody]
  | (id, e) :: rest => by
    simp [refsClosedBody, Bool.and_eq_true, refsClosedBody_iff keep rest]

mutual

theorem refsClosedExpr_mono (k k2 : List OldId) (hsub : ∀ x, x ∈ k → x ∈ k2) :
    ∀ e, refsClosedExpr k e = true → refsClosedExpr k2 e = true
  | .simple refs p, h => by
    simp only [refsClosedExpr, List.all_eq_true, contains_iff] at h ⊢
    exact fun r hr => hsub r (h r hr)
  | .lambda refs p body, h => by
    simp only [refsClosedExpr, Bool.and_eq_true, List.all_eq_true,
      contains_iff] at h ⊢
    exact ⟨fun r hr => hsub r (h.1 r hr), refsClosedBody_mono k k2 hsub body h.2⟩

theorem refsClosedBody_mono (k k2 : List OldId) (hsub : ∀ x, x ∈ k → x ∈ k2) :
    ∀ b, refsClosedBody k b = true → refsClosedBody k2 b = true
  | [], _ => rfl
  | (id, e) :: rest, h => by
    simp only [refsClosedBody, Bool.and_eq_true] at h ⊢
    exact ⟨refsClosedExpr_mono k k2 hsub e h.1,
      refsClosedBody_mono k k2 hsub rest h.2⟩

end

theorem mem_mentionsBody_lt (id : OldId) :
    ∀ rest : List (OldId × OldExpression),
      (rest.all fun p => decide (p.1 < id) && belowBound id p.2) = true →
      ∀ x ∈ mentionsBody rest, x < id
  | [], _, x, hx => by simp [mentionsBody] at hx
  | (j, e) :: r, h, x, hx => by
    simp only [List.all_cons, Bool.and_eq_true, decide_eq_true_eq, belowBound,
      List.all_eq_true] at h
    simp only [mentionsBody, List.mem_cons, List.mem_append] at hx
    rcases hx with rfl | hx | hx
    · exact h.1.1
    · exact h.1.2 x hx
    · exact mem_mentionsBody_lt id r (by
        simp only [List.all_eq_true, Bool.and_eq_true, decide_eq_true_eq,
          belowBound]
        exact h.2) x hx

theorem filter_getLast (p : OldId → Bool) :
    ∀ (l : List OldId) (a : OldId), l.getLast? = some a → p a = true →
      (l.filter p).getLast? = some a
  | [], a, h, _ => by simp at h
  | [x], a, h, hp => by
    simp only [List.getLast?_singleton, Option.some.injEq] at h
    subst h
    simp [List.filter_cons, hp]
  | x :: y :: r, a, h, hp => by
    have hlast : (y :: r).getLast? = some a := h
    have ih := filter_getLast p (y :: r) a hlast hp
    have hmem : a ∈ (y :: r).filter p :=
      List.mem_filter.mpr ⟨List.mem_of_mem_getLast? hlast, hp⟩
    rw [List.filter_cons]
    split
    · obtain ⟨b, t, hbt⟩ :=
        List.exists_cons_of_ne_nil (List.ne_nil_of_mem hmem)
      rw [hbt] at ih ⊢
      exact ih
    · exact ih

/-- Induction payload for `shakeRev`: `keep` only grows, everything added to
`keep` is mentioned by the processed entries, surviving entries are
reference-closed w.r.t. the final `keep`, impure entry ids end up in `keep`,
and under the SSA discipline the survivors are exactly the entries whose id
is in the final `keep`. -/
def ShakeRevSpec (fuel : Nat) : Prop :=
  ∀ es keep out keep2, shakeRev fuel es keep = some (out, keep2) →
    (∀ x ∈ keep, x ∈ keep2) ∧
    (∀ x ∈ keep2, x ∈ keep ∨ x ∈ mentionsBody es) ∧
    (∀ p ∈ out, refsClosedExpr keep2 p.2 = true) ∧
    (∀ p ∈ es, p.2.isPure = false → p.1 ∈ keep2) ∧
    (wfRev es = true →
      out.map Prod.fst = (es.map Prod.fst).filter fun i => keep2.contains i)

/-- Same payload for `shakeBody`, plus: the return value id is kept. -/
def ShakeBodySpec (fuel : Nat) : Prop :=
  ∀ b keep out keep2, shakeBody fuel b keep = some (out, keep2) →
    (∀ x ∈ keep, x ∈ keep2) ∧
    (∀ x ∈ keep2, x ∈ keep ∨ x ∈ mentionsBody b) ∧
    (∀ p ∈ out, refsClosedExpr keep2 p.2 = true) ∧
    (∀ p ∈ b, p.2.isPure = false → p.1 ∈ keep2) ∧
    (∀ rid e, b.getLast? = some (rid, e) → rid ∈ keep2) ∧
    (wfRev b.reverse = true →
      out.map Prod.fst = (b.map Prod.fst).filter fun i => keep2.contains i)

theorem shake_aux : ∀ fuel, ShakeRevSpec fuel ∧ ShakeBodySpec fuel := by
  intro fuel
  induction fuel with
  | zero =>
    constructor
    · intro es keep out keep2 h
      simp [shakeRev] at h
    · intro b keep out keep2 h
      simp [shakeBody] at h
  | succ fuel ih =>
    obtain ⟨ihA, ihB⟩ := ih
    constructor
    · intro es keep out keep2 h
      rcases es with _ | ⟨⟨id, e⟩, rest⟩
      · simp only [shakeRev, Option.some.injEq, Prod.mk.injEq] at h
        obtain ⟨rfl, rfl⟩ := h
        refine ⟨fun x hx => hx, fun x hx => Or.inl hx, ?_, ?_, fun _ => rfl⟩
        · intro p hp
          simp at hp
        · intro p hp
          simp at hp
      · rcases e with ⟨refs, pu, ebody⟩ | ⟨refs, pu⟩
        · -- lambda head
          simp only [shakeRev, OldExpression.isPure,
            OldExpression.referencedIds] at h
          split at h
          · rename_i hcond
            split at h
            · exact Option.noConfusion h
            · rename_i res1 body2 keepB heqB
              split at h
              · exact Option.noConfusion h
              · rename_i res2 rest2 keep3 heqR
                simp only [Option.some.injEq, Prod.mk.injEq] at h
                obtain ⟨rfl, rfl⟩ := h
                obtain ⟨mB, bB, cB, iB, lB, fB⟩ :=
                  ihB ebody (id :: (refs ++ keep)) body2 keepB heqB
                obtain ⟨mR, bR, cR, iR, fR⟩ := ihA rest keepB rest2 keep3 heqR
                refine ⟨?_, ?_, ?_, ?_, ?_⟩
                · intro x hx
                  exact mR x (mB x (by simp [hx]))
                · intro x hx
                  rcases bR x hx with hk | hm
                  · rcases bB x hk with hk2 | hm2
                    · rcases List.mem_cons.mp hk2 with rfl | hk3
                      · right
                        simp [mentionsBody]
                      · rcases List.mem_append.mp hk3 with h3 | h3
                        · right
                          simp [mentionsBody, mentionsExpr, h3]
                        · exact Or.inl h3
                    · right
                      simp [mentionsBody, mentionsExpr, hm2]
                  · right
                    simp [mentionsBody, hm]
                · intro p hp
                  rcases List.mem_cons.mp hp with rfl | hp2
                  · show refsClosedExpr keep3 (.lambda refs pu body2) = true
                    simp only [refsClosedExpr, Bool.and_eq_true,
                      List.all_eq_true, contains_iff]
                    refine ⟨fun r hr => mR r (mB r (by simp [hr])), ?_⟩
                    exact refsClosedBody_mono keepB keep3 mR body2
                      ((refsClosedBody_iff keepB body2).mpr cB)
                  · exact cR p hp2
                · intro p hp hpure
                  rcases List.mem_cons.mp hp with rfl | hp2
                  · exact mR id (mB id (by simp))
                  · exact iR p hp2 hpure
                · intro hwf
                  simp only [wfRev, Bool.and_eq_true] at hwf
                  have hid2 : id ∈ keep3 := mR id (mB id (by simp))
                  simp [List.filter_cons, hid2, fR hwf.2]
          · rename_i hcond
            have hcond2 : pu = true ∧ keep.contains id = false := by
              constructor
              · cases hpu : pu
                · exact absurd (by simp [hpu]) hcond
                · rfl
              · cases hc : keep.contains id
                · rfl
                · exact absurd (by simp [(contains_iff keep id).mp hc]) hcond
            split at h
            · exact Option.noConfusion h
            · rename_i res rest2 keep2x heqR
              simp only [Option.some.injEq, Prod.mk.injEq] at h
              obtain ⟨rfl, rfl⟩ := h
              obtain ⟨mR, bR, cR, iR, fR⟩ := ihA rest keep rest2 keep2x heqR
              refine ⟨mR, ?_, cR, ?_, ?_⟩
              · intro x hx
                rcases bR x hx with hk | hm
                · exact Or.inl hk
                · right
                  simp [mentionsBody, hm]
              · intro p hp hpure
                rcases List.mem_cons.mp hp with rfl | hp2
                · simp only [OldExpression.isPure] at hpure
                  rw [hcond2.1] at hpure
                  exact Bool.noConfusion hpure
                · exact iR p hp2 hpure
              · intro hwf
                simp only [wfRev, Bool.and_eq_true] at hwf
                have hidnot : id ∉ keep2x := by
                  intro hid
                  rcases bR id hid with hk | hm
                  · have := (contains_iff keep id).mpr hk
                    rw [hcond2.2] at this
                    exact Bool.noConfusion this
                  · exact absurd (mem_mentionsBody_lt id rest hwf.1 id hm)
                      (lt_irrefl id)
                simp [List.filter_cons, hidnot, fR hwf.2]
        · -- simple head
          simp only [shakeRev, OldExpression.isPure,
            OldExpression.referencedIds] at h
          split at h
          · rename_i hcond
            split at h
            · exact Option.noConfusion h
            · rename_i res rest2 keep2x heqR
              simp only [Option.some.injEq, Prod.mk.injEq] at h
              obtain ⟨rfl, rfl⟩ := h
              obtain ⟨mR, bR, cR, iR, fR⟩ :=
                ihA rest (id :: (refs ++ keep)) rest2 keep2x heqR
              refine ⟨?_, ?_, ?_, ?_, ?_⟩
              · intro x hx
                exact mR x (by simp [hx])
              · intro x hx
                rcases bR x hx with hk | hm
                · rcases List.mem_cons.mp hk with rfl | hk3
                  · right
                    simp [mentionsBody]
                  · rcases List.mem_append.mp hk3 with h3 | h3
                    · right
                      simp [mentionsBody, mentionsExpr, h3]
                    · exact Or.inl h3
                · right
                  simp [mentionsBody, hm]
              · intro p hp
                rcases List.mem_cons.mp hp with rfl | hp2
                · show refsClosedExpr keep2x (.simple refs pu) = true
                  simp only [refsClosedExpr, List.all_eq_true, contains_iff]
                  exact fun r hr => mR r (by simp [hr])
                · exact cR p hp2
              · intro p hp hpure
                rcases List.mem_cons.mp hp with rfl | hp2
                · exact mR id (by simp)
                · exact iR p hp2 hpure
              · intro hwf
                simp only [wfRev, Bool.and_eq_true] at hwf
                have hid2 : id ∈ keep2x := mR id (by simp)
                simp [List.filter_cons, hid2, fR hwf.2]
          · rename_i hcond
            have hcond2 : pu = true ∧ keep.contains id = false := by
              constructor
              · cases hpu : pu
                · exact absurd (by simp [hpu]) hcond
                · rfl
              · cases hc : keep.contains id
                · rfl
                · exact absurd (by simp [(contains_iff keep id).mp hc]) hcond
            split at h
            · exact Option.noConfusion h
            · rename_i res rest2 keep2x heqR
              simp only [Option.some.injEq, Prod.mk.injEq] at h
              obtain ⟨rfl, rfl⟩ := h
              obtain ⟨mR, bR, cR, iR, fR⟩ := ihA rest keep rest2 keep2x heqR
              refine ⟨mR, ?_, cR, ?_, ?_⟩
              · intro x hx
                rcases bR x hx with hk | hm
                · exact Or.inl hk
                · right
                  simp [mentionsBody, hm]
              · intro p hp hpure
                rcases List.mem_cons.mp hp with rfl | hp2
                · simp only [OldExpression.isPure] at hpure
                  rw [hcond2.1] at hpure
                  exact Bool.noConfusion hpure
                · exact iR p hp2 hpure
              · intro hwf
                simp only [wfRev, Bool.and_eq_true] at hwf
                have hidnot : id ∉ keep2x := by
                  intro hid
                  rcases bR id hid with hk | hm
                  · have := (contains_iff keep id).mpr hk
                    rw [hcond2.2] at this
                    exact Bool.noConfusion this
                  · exact absurd (mem_mentionsBody_lt id rest hwf.1 id hm)
                      (lt_irrefl id)
                simp [List.filter_cons, hidnot, fR hwf.2]
    · intro b keep out keep2 h
      simp only [shakeBody] at h
      split at h
      · exact Option.noConfusion h
      · rename_i res returnId eR heqL
        split at h
        · exact Option.noConfusion h
        · rename_i res2 revKept keep2x heqR
          simp only [Option.some.injEq, Prod.mk.injEq] at h
          obtain ⟨rfl, rfl⟩ := h
          obtain ⟨mR, bR, cR, iR, fR⟩ :=
            ihA b.reverse (returnId :: keep) revKept keep2x heqR
          refine ⟨?_, ?_, ?_, ?_, ?_, ?_⟩
          · intro x hx
            exact mR x (List.mem_cons_of_mem _ hx)
          · intro x hx
            rcases bR x hx with hk | hm
            · rcases List.mem_cons.mp hk with rfl | hk2
              · exact Or.inr (getLast?_mem_mentionsBody b x eR heqL)
              · exact Or.inl hk2
            · exact Or.inr ((mem_mentionsBody_reverse x b).mp hm)
          · intro p hp
            exact cR p (List.mem_reverse.mp hp)
          · intro p hp hpure
            exact iR p (List.mem_reverse.mpr hp) hpure
          · intro rid e hlast
            rw [heqL] at hlast
            simp only [Option.some.injEq, Prod.mk.injEq] at hlast
            obtain ⟨rfl, -⟩ := hlast
            exact mR returnId (List.mem_cons_self _ _)
          · intro hwf
            have hfil := fR hwf
            calc revKept.reverse.map Prod.fst
                = (revKept.map Prod.fst).reverse := List.map_reverse _ _
              _ = ((b.reverse.map Prod.fst).filter
                    fun i => keep2x.contains i).reverse := by rw [hfil]
              _ = (((b.map Prod.fst).reverse).filter
                    fun i => keep2x.contains i).reverse := by
                    rw [List.map_reverse]
              _ = (((b.map Prod.fst).filter
                    fun i => keep2x.contains i).reverse).reverse := by
                    rw [List.filter_reverse]
              _ = (b.map Prod.fst).filter fun i => keep2x.contains i :=
                    List.reverse_reverse _

/-- **C6.** Tree shaking of a MIR body removes exactly the expressions that
are pure and unreferenced: whenever `tree_shake` succeeds on a body obeying
the SSA discipline, the body's return value (its last expression) is still
present and still last, every impure expression is still present, every
expression transitively referenced by a kept expression — including through
nested lambda bodies — has its references inside the final `keep` set whose
members (among the body's ids) are exactly the surviving entries, and every
removed expression was pure and is not in `keep`, i.e. has no remaining
reference from any kept expression. -/
theorem tree_shake_spec (fuel : Nat) (body out : List (OldId × OldExpression))
    (keep2 : List OldId)
    (hwf : wfRev body.reverse = true)
    (h : tree_shake fuel body = some (out, keep2)) :
    (∀ returnId e, body.getLast? = some (returnId, e) →
        ∃ e2, out.getLast? = some (returnId, e2)) ∧
    (∀ p ∈ body, p.2.isPure = false → p.1 ∈ out.map Prod.fst) ∧
    (∀ p ∈ out, refsClosedExpr keep2 p.2 = true) ∧
    (∀ x ∈ keep2, x ∈ body.map Prod.fst → x ∈ out.map Prod.fst) ∧
    (out.map Prod.fst = (body.map Prod.fst).filter fun i => keep2.contains i) ∧
    (∀ p ∈ body, p.1 ∉ out.map Prod.fst →
        p.2.isPure = true ∧ p.1 ∉ keep2) := by
  obtain ⟨mB, bB, cB, iB, lB, fB⟩ := (shake_aux fuel).2 body [] out keep2 h
  have hfil := fB hwf
  refine ⟨?_, ?_, cB, ?_, hfil, ?_⟩
  · intro returnId e hlast
    have hrk : returnId ∈ keep2 := lB returnId e hlast
    have hlast2 : (body.map Prod.fst).getLast? = some returnId := by
      rw [List.getLast?_map, hlast]
      rfl
    have hthis := filter_getLast (fun i => keep2.contains i)
      (body.map Prod.fst) returnId hlast2 ((contains_iff keep2 returnId).mpr hrk)
    rw [← hfil, List.getLast?_map] at hthis
    cases hol : out.getLast? with
    | none =>
      rw [hol] at hthis
      exact Option.noConfusion hthis
    | some q =>
      rw [hol] at hthis
      have ha : q.1 = returnId := by simpa using hthis
      exact ⟨q.2, by rw [← ha]⟩
  · intro p hp hpure
    have hk : p.1 ∈ keep2 := iB p hp hpure
    rw [hfil]
    exact List.mem_filter.mpr
      ⟨List.mem_map_of_mem _ hp, (contains_iff _ _).mpr hk⟩
  · intro x hx hxb
    rw [hfil]
    exact List.mem_filter.mpr ⟨hxb, (contains_iff _ _).mpr hx⟩
  · intro p hp hnot
    have hnk : p.1 ∉ keep2 := by
      intro hk
      exact hnot (by
        rw [hfil]
        exact List.mem_filter.mpr
          ⟨List.mem_map_of_mem _ hp, (contains_iff _ _).mpr hk⟩)
    refine ⟨?_, hnk⟩
    cases hpu : p.2.isPure
    · exact absurd (iB p hp hpu) hnk
    · rfl

/-- A body obeying the SSA discipline: `0` and `3` are pure and
unreferenced, `1` is a lambda referenced by the impure `3`, `4` is the
return value. Entry `0` is the only one tree shaking removes. -/
def c6Body : List (OldId × OldExpression) :=
  [(0, .simple [] true), (1, .lambda [] true [(2, .simple [] true)]),
   (3, .simple [1] false), (4, .simple [] true)]

def c6Out : List (OldId × OldExpression) :=
  [(1, .lambda [] true [(2, .simple [] true)]),
   (3, .simple [1] false), (4, .simple [] true)]

def c6Keep : List OldId := [2, 2, 1, 3, 1, 4, 4]

/-- Witness for C6: the concrete body satisfies the SSA discipline and tree
shaking keeps exactly the entries whose id lands in the final keep set. -/
theorem tree_shake_spec_witness :
    wfRev c6Body.reverse = true ∧
      c6Out.map Prod.fst =
        (c6Body.map Prod.fst).filter fun i => c6Keep.contains i :=
  ⟨by decide,
    (tree_shake_spec 10 c6Body c6Out c6Keep (by decide) rfl).2.2.2.2.1⟩

/-! ## Struct parser round trip (C1)

Translated from `src/compiler/frontend/src/string_to_rcst/struct_.rs` and the
`Display` instance of `src/compiler/frontend/src/cst/kind.rs`. The input is a
`List Char`. The helper modules `string_to_rcst/literal.rs`,
`string_to_rcst/whitespace.rs`, `string_to_rcst/expression.rs` and
`cst/is_multiline.rs` are absent from `src/`, so: the single-token literal
parsers are modelled as prefix matchers producing the corresponding
`CstKind`; the `expression` and `whitespaces_and_newlines` sub-parsers are
abstract parameters constrained only by their round-trip property (and, for
whitespace, maximality); `is_multiline` and `wrap_in_whitespace` are
modelled from the spec. -/

/-- The `CstError` cases used by the struct parser. -/
inductive CstError where
  | structFieldMissesColon
  | structFieldMissesKey
  | structFieldMissesValue
  | structNotClosed

/-- The `CstKind<()>` fragment the struct parser manipulates (`rcst.rs`:
`Rcst = Cst<()>`). Nodes produced by the abstract `expression` and
`whitespaces_and_newlines` sub-parsers that the struct parser never
inspects are covered by `whitespace`/`newline`/`other`; `other` stands for
any remaining `CstKind` variant and formats to its rendered text. -/
inductive Rcst where
  | openingBracket
  | closingBracket
  | colon
  | colonEqualsSign
  | comma
  | whitespace (s : List Char)
  | newline (s : List Char)
  | trailingWhitespace (child : Rcst) (ws : List Rcst)
  | structField (keyAndColon : Option (Rcst × Rcst)) (value : Rcst)
      (comma : Option Rcst)
  | struct (openingBracket : Rcst) (fields : List Rcst)
      (closingBracket : Rcst)
  | error (unparsableInput : List Char) (e : CstError)
  | other (text : List Char)

mutual

/-- The `Display` implementation of `CstKind` (`cst/kind.rs`), restricted to
the fragment above: a node formats to the exact characters it covers; an
`Error` formats to its `unparsable_input`. -/
def Rcst.format : Rcst → List Char
  | .openingBracket => ['[']
  | .closingBracket => [']']
  | .colon => [':']
  | .colonEqualsSign => [':', '=']
  | .comma => [',']
  | .whitespace s => s
  | .newline s => s
  | .trailingWhitespace child ws => child.format ++ formatList ws
  | .structField kc v c => keyColonFormat kc ++ (v.format ++ optFormat c)
  | .struct ob fields cb => ob.format ++ (formatList fields ++ cb.format)
  | .error unparsable _ => unparsable
  | .other t => t

/-- `if let Some(box (key, colon)) = key_and_colon { key; colon }`. -/
def keyColonFormat : Option (Rcst × Rcst) → List Char
  | none => []
  | some kcp => kcp.1.format ++ kcp.2.format

/-- `if let Some(comma) = comma { comma }`. -/
def optFormat : Option Rcst → List Char
  | none => []
  | some r => r.format

def formatList : List Rcst → List Char
  | [] => []
  | r :: rs => r.format ++ formatList rs

end

/-- Modelled from the spec: `Rcst::wrap_in_whitespace` (the cst helpers are
absent from `src/`) — appends to an existing `TrailingWhitespace` wrapper or
creates one; empty whitespace leaves the node unchanged. -/
def wrapInWhitespace (r : Rcst) (ws : List Rcst) : Rcst :=
  if ws.isEmpty then r
  else
    match r with
    | .trailingWhitespace child existing =>
      .trailingWhitespace child (existing ++ ws)
    | _ => .trailingWhitespace r ws

/-- `fields.pop()` + `wrap_in_whitespace` + `push` on the last field. -/
def wrapLast (fields : List Rcst) (ws : List Rcst) : List Rcst :=
  match fields.getLast? with
  | none => fields
  | some last => fields.dropLast ++ [wrapInWhitespace last ws]

/-- Modelled from the spec: `Vec<Rcst>::is_multiline` — whether the
whitespace list contains a newline. Only steers `fields_indentation`. -/
def isMultilineList (ws : List Rcst) : Bool :=
  ws.any fun r =>
    match r with
    | .newline _ => true
    | _ => false

/-- `if multiline { fields_indentation = indentation + 1 }`. -/
def updFi (multiline : Bool) (indentation fi : Nat) : Nat :=
  if multiline then indentation + 1 else fi

structure ExpressionParsingOptions where
  allowAssignment : Bool
  allowCall : Bool
  allowBar : Bool
  allowFunction : Bool

/-- The two sub-parsers `struct_` calls, abstract because
`string_to_rcst/expression.rs` and `string_to_rcst/whitespace.rs` are absent
from `src/`: `expression input indentation options` and
`whitespaces_and_newlines input indentation newlines_allowed` (the latter
always succeeds, returning the rest plus the consumed whitespace nodes). -/
structure SubParsers where
  expression : List Char → Nat → ExpressionParsingOptions →
    Option (List Char × Rcst)
  wsnl : List Char → Nat → Bool → List Char × List Rcst

/-- Modelled from the spec: `literal.rs` `opening_bracket` — matches `[`. -/
def parseOpeningBracket : List Char → Option (List Char × Rcst)
  | '[' :: rest => some (rest, .openingBracket)
  | _ => none

/-- Modelled from the spec: `literal.rs` `closing_bracket` — matches `]`. -/
def parseClosingBracket : List Char → Option (List Char × Rcst)
  | ']' :: rest => some (rest, .closingBracket)
  | _ => none

/-- Modelled from the spec: `literal.rs` `colon` — matches `:`. -/
def parseColon : List Char → Option (List Char × Rcst)
  | ':' :: rest => some (rest, .colon)
  | _ => none

/-- Modelled from the spec: `literal.rs` `colon_equals_sign` — matches
`:=`. -/
def parseColonEqualsSign : List Char → Option (List Char × Rcst)
  | ':' :: '=' :: rest => some (rest, .colonEqualsSign)
  | _ => none

/-- Modelled from the spec: `literal.rs` `comma` — matches `,`. -/
def parseComma : List Char → Option (List Char × Rcst)
  | ',' :: rest => some (rest, .comma)
  | _ => none

/-- The key-or-value parse: `expression` result, or the unchanged input and
`None`. -/
def keyResult (sp : SubParsers) (input1 : List Char) (fi1 : Nat)
    (allowFunction : Bool) : List Char × Option Rcst :=
  match sp.expression input1 fi1 ⟨false, true, true, allowFunction⟩ with
  | some ki => (ki.1, some ki.2)
  | none => (input1, none)

/-- The colon parse with the `:=` guard: a real colon only when `colon`
succeeds and the input does not start with `:=`; otherwise an Error
`StructFieldMissesColon` without consuming input. -/
def colonResult (i3 : List Char) : List Char × Rcst × Bool :=
  match parseColon i3, parseColonEqualsSign i3 with
  | some ci, none => (ci.1, ci.2, true)
  | _, _ => (i3, .error [] .structFieldMissesColon, false)

/-- The value parse: `expression` result, or an Error
`StructFieldMissesValue` without consuming input. -/
def valueResult (sp : SubParsers) (i5 : List Char) (indArg : Nat)
    (allowFunction : Bool) : List Char × Rcst × Bool :=
  match sp.expression i5 indArg ⟨false, true, true, allowFunction⟩ with
  | some vi => (vi.1, vi.2, true)
  | none => (i5, .error [] .structFieldMissesValue, false)

/-- The comma parse. -/
def commaResult (i7 : List Char) : List Char × Option Rcst :=
  match parseComma i7 with
  | some ci => (ci.1, some ci.2)
  | none => (i7, none)

/-- `key_or_value.unwrap_or_else(|| Error ...)`. -/
def unwrapKeyOrValue (keyOrValue : Option Rcst) (shorthand : Bool) : Rcst :=
  match keyOrValue with
  | some k => k
  | none =>
    .error []
      (if shorthand then CstError.structFieldMissesValue
       else CstError.structFieldMissesKey)

/-- One iteration of the `loop` in `struct_` past the leading-whitespace
handling: parses optional key-or-value, whitespace, colon (suppressed if the
input starts with `:=`), whitespace, value, whitespace and comma. Returns
`none` for the loop's `break` (no key, no value, no comma) and otherwise the
next outer input, the finished `StructField` and the updated
`fields_indentation`. -/
def structFieldStep (sp : SubParsers) (indentation : Nat)
    (allowFunction : Bool) (input1 : List Char) (fi1 : Nat) :
    Option (List Char × Rcst × Nat) :=
  let keyRes := keyResult sp input1 fi1 allowFunction
  let kv := sp.wsnl keyRes.1 (fi1 + 1) true
  let fi2 := updFi (isMultilineList kv.2) indentation fi1
  let colonRes := colonResult kv.1
  let ws2 := sp.wsnl colonRes.1 (fi2 + 1) true
  let fi3 := updFi (isMultilineList ws2.2) indentation fi2
  let colonW := wrapInWhitespace colonRes.2.1 ws2.2
  let valueRes := valueResult sp ws2.1 (fi3 + 1) allowFunction
  let ws3 := sp.wsnl valueRes.1 (fi3 + 1) true
  let fi4 := updFi (isMultilineList ws3.2) indentation fi3
  let valueW := wrapInWhitespace valueRes.2.1 ws3.2
  let commaRes := commaResult ws3.1
  if keyRes.2.isNone && !valueRes.2.2 && commaRes.2.isNone then
    none
  else
    let isUsingShorthand :=
      keyRes.2.isSome && !colonRes.2.2 && !valueRes.2.2
    let keyOrValue3 :=
      wrapInWhitespace (unwrapKeyOrValue keyRes.2 isUsingShorthand) kv.2
    let field :=
      if isUsingShorthand then
        Rcst.structField none keyOrValue3 commaRes.2
      else
        Rcst.structField (some (keyOrValue3, colonW)) valueW commaRes.2
    some (commaRes.1, field, fi4)

/-- The `loop` of `struct_`: handles the whitespace before the key (attached
to the opening bracket while no field exists, else to the last field), then
runs `structFieldStep`; `break` returns the current outer input, opening
bracket and fields. Fuel exhaustion is `none`. -/
def structLoop (sp : SubParsers) : Nat → Nat → Bool → List Char → Rcst →
    List Rcst → Nat → Option (List Char × Rcst × List Rcst)
  | 0, _, _, _, _, _, _ => none
  | fuel + 1, indentation, allowFunction, outerInput, ob, fields, fi =>
    let pws := sp.wsnl outerInput (indentation + 1) true
    let fi1 := updFi (isMultilineList pws.2) indentation fi
    let ob1 := if fields.isEmpty then wrapInWhitespace ob pws.2 else ob
    let fields1 := if fields.isEmpty then fields else wrapLast fields pws.2
    let input1 := pws.1
    match structFieldStep sp indentation allowFunction input1 fi1 with
    | none => some (input1, ob1, fields1)
    | some (i8, field, fi4) =>
      structLoop sp fuel indentation allowFunction i8 ob1
        (fields1 ++ [field]) fi4

/-- `struct_` from `string_to_rcst/struct_.rs`: opening bracket, field loop,
whitespace, closing bracket (an unclosed struct yields an Error node without
consuming the whitespace). -/
def struct_ (sp : SubParsers) (fuel : Nat) (input : List Char)
    (indentation : Nat) (allowFunction : Bool) :
    Option (List Char × Rcst) :=
  match parseOpeningBracket input with
  | none => none
  | some obRes =>
    match structLoop sp fuel indentation allowFunction obRes.1 obRes.2
        [] indentation with
    | none => none
    | some res =>
      let input1 := res.1
      let ob1 := res.2.1
      let fields1 := res.2.2
      let p := sp.wsnl input1 indentation true
      match parseClosingBracket p.1 with
      | some cbRes =>
        if fields1.isEmpty then
          some (cbRes.1, .struct (wrapInWhitespace ob1 p.2) fields1 cbRes.2)
        else
          some (cbRes.1, .struct ob1 (wrapLast fields1 p.2) cbRes.2)
      | none =>
        some (input1, .struct ob1 fields1 (.error [] .structNotClosed))

theorem formatList_append :
    ∀ a b : List Rcst, formatList (a ++ b) = formatList a ++ formatList b
  | [], _ => rfl
  | r :: rs, b => by
    show r.format ++ formatList (rs ++ b) = (r.format ++ formatList rs) ++ _
    rw [formatList_append rs b, List.append_assoc]

theorem wrapInWhitespace_format (r : Rcst) (ws : List Rcst) :
    (wrapInWhitespace r ws).format = r.format ++ formatList ws := by
  unfold wrapInWhitespace
  split
  · rename_i hemp
    rw [List.isEmpty_iff.mp hemp]
    show r.format = r.format ++ formatList []
    rw [show formatList [] = [] from rfl, List.append_nil]
  · split
    · rename_i child existing
      show child.format ++ formatList (existing ++ ws) = _
      rw [formatList_append]
      show _ = child.format ++ formatList existing ++ formatList ws
      rw [List.append_assoc]
    · rfl

theorem wrapLast_format (fields : List Rcst) (ws : List Rcst)
    (h : fields ≠ []) :
    formatList (wrapLast fields ws) = formatList fields ++ formatList ws := by
  unfold wrapLast
  cases hl : fields.getLast? with
  | none => exact absurd (List.getLast?_eq_none_iff.mp hl) h
  | some last =>
    have hdec : fields.dropLast ++ [last] = fields :=
      List.dropLast_append_getLast? last hl
    conv_rhs => rw [← hdec]
    simp [formatList_append, formatList, wrapInWhitespace_format,
      List.append_assoc]

theorem parseOpeningBracket_eq (input rest : List Char) (node : Rcst)
    (h : parseOpeningBracket input = some (rest, node)) :
    node = .openingBracket ∧ input = '[' :: rest := by
  unfold parseOpeningBracket at h
  split at h
  · simp only [Option.some.injEq, Prod.mk.injEq] at h
    rename_i r
    exact ⟨h.2.symm, by rw [h.1]⟩
  · exact Option.noConfusion h

theorem parseClosingBracket_eq (input rest : List Char) (node : Rcst)
    (h : parseClosingBracket input = some (rest, node)) :
    node = .closingBracket ∧ input = ']' :: rest := by
  unfold parseClosingBracket at h
  split at h
  · simp only [Option.some.injEq, Prod.mk.injEq] at h
    rename_i r
    exact ⟨h.2.symm, by rw [h.1]⟩
  · exact Option.noConfusion h

theorem parseColon_eq (input rest : List Char) (node : Rcst)
    (h : parseColon input = some (rest, node)) :
    node = .colon ∧ input = ':' :: rest := by
  unfold parseColon at h
  split at h
  · simp only [Option.some.injEq, Prod.mk.injEq] at h
    rename_i r
    exact ⟨h.2.symm, by rw [h.1]⟩
  · exact Option.noConfusion h

theorem parseComma_eq (input rest : List Char) (node : Rcst)
    (h : parseComma input = some (rest, node)) :
    node = .comma ∧ input = ',' :: rest := by
  unfold parseComma at h
  split at h
  · simp only [Option.some.injEq, Prod.mk.injEq] at h
    rename_i r
    exact ⟨h.2.symm, by rw [h.1]⟩
  · exact Option.noConfusion h

theorem updFi_le (m : Bool) (indentation fi : Nat) (h : fi ≤ indentation + 1) :
    updFi m indentation fi ≤ indentation + 1 := by
  cases m <;> simp [updFi, h]

theorem le_updFi (m : Bool) (indentation fi : Nat) (h : fi ≤ indentation + 1) :
    fi ≤ updFi m indentation fi := by
  cases m <;> simp [updFi, h]

theorem keyResult_spec (sp : SubParsers)
    (hexpr : ∀ input ind opts rest node,
        sp.expression input ind opts = some (rest, node) →
        node.format ++ rest = input)
    (input1 : List Char) (fi1 : Nat) (af : Bool) :
    optFormat (keyResult sp input1 fi1 af).2 ++ (keyResult sp input1 fi1 af).1
      = input1 := by
  unfold keyResult
  cases hk : sp.expression input1 fi1 ⟨false, true, true, af⟩ with
  | none => rfl
  | some ki => exact hexpr _ _ _ _ _ (by rw [hk])

theorem colonResult_spec (i3 : List Char) :
    ((colonResult i3).2.1.format ++ (colonResult i3).1 = i3) ∧
    ((colonResult i3).2.2 = false →
      (colonResult i3).1 = i3 ∧ (colonResult i3).2.1.format = []) := by
  unfold colonResult
  cases hc : parseColon i3 with
  | none => exact ⟨rfl, fun _ => ⟨rfl, rfl⟩⟩
  | some ci =>
    cases hce : parseColonEqualsSign i3 with
    | none =>
      obtain ⟨hnode, hin⟩ := parseColon_eq i3 ci.1 ci.2 (by rw [hc])
      refine ⟨?_, fun hfalse => Bool.noConfusion hfalse⟩
      show ci.2.format ++ ci.1 = i3
      rw [hnode, hin]
      rfl
    | some _ => exact ⟨rfl, fun _ => ⟨rfl, rfl⟩⟩

theorem valueResult_spec (sp : SubParsers)
    (hexpr : ∀ input ind opts rest node,
        sp.expression input ind opts = some (rest, node) →
        node.format ++ rest = input)
    (i5 : List Char) (indArg : Nat) (af : Bool) :
    ((valueResult sp i5 indArg af).2.1.format
        ++ (valueResult sp i5 indArg af).1 = i5) ∧
    ((valueResult sp i5 indArg af).2.2 = false →
      (valueResult sp i5 indArg af).1 = i5 ∧
        (valueResult sp i5 indArg af).2.1.format = []) := by
  unfold valueResult
  cases hv : sp.expression i5 indArg ⟨false, true, true, af⟩ with
  | none => exact ⟨rfl, fun _ => ⟨rfl, rfl⟩⟩
  | some vi =>
    exact ⟨hexpr _ _ _ _ _ (by rw [hv]), fun hfalse => Bool.noConfusion hfalse⟩

theorem commaResult_spec (i7 : List Char) :
    optFormat (commaResult i7).2 ++ (commaResult i7).1 = i7 := by
  unfold commaResult
  cases hc : parseComma i7 with
  | none => rfl
  | some ci =>
    obtain ⟨hnode, hin⟩ := parseComma_eq i7 ci.1 ci.2 (by rw [hc])
    show ci.2.format ++ ci.1 = i7
    rw [hnode, hin]
    rfl

theorem unwrapKeyOrValue_format (kv : Option Rcst) (sh : Bool) :
    (unwrapKeyOrValue kv sh).format = optFormat kv := by
  cases kv <;> rfl

theorem structFieldStep_spec (sp : SubParsers)
    (hexpr : ∀ input ind opts rest node,
        sp.expression input ind opts = some (rest, node) →
        node.format ++ rest = input)
    (hws : ∀ input ind c,
        formatList (sp.wsnl input ind c).2 ++ (sp.wsnl input ind c).1 = input)
    (hmax : ∀ input ind ind2, ind ≤ ind2 →
        sp.wsnl (sp.wsnl input ind true).1 ind2 true
          = ((sp.wsnl input ind true).1, []))
    (indentation : Nat) (af : Bool) (input1 : List Char) (fi1 : Nat)
    (hfi : fi1 ≤ indentation + 1) :
    ∀ i8 field fi4,
      structFieldStep sp indentation af input1 fi1 = some (i8, field, fi4) →
      field.format ++ i8 = input1 ∧ fi4 ≤ indentation + 1 := by
  intro i8 field fi4 h
  simp only [structFieldStep] at h
  set K := keyResult sp input1 fi1 af with hK
  set kv := sp.wsnl K.1 (fi1 + 1) true with hkv
  set fi2 := updFi (isMultilineList kv.2) indentation fi1 with hfi2
  set C := colonResult kv.1 with hC
  set ws2 := sp.wsnl C.1 (fi2 + 1) true with hws2
  set fi3 := updFi (isMultilineList ws2.2) indentation fi2 with hfi3
  set V := valueResult sp ws2.1 (fi3 + 1) af with hV
  set ws3 := sp.wsnl V.1 (fi3 + 1) true with hws3
  set fi4e := updFi (isMultilineList ws3.2) indentation fi3 with hfi4e
  set Cm := commaResult ws3.1 with hCm
  split at h
  · exact Option.noConfusion h
  · rename_i hcond
    simp only [Option.some.injEq, Prod.mk.injEq] at h
    obtain ⟨h1, h2, h3⟩ := h
    subst h1
    subst h2
    subst h3
    have hb2 : fi2 ≤ indentation + 1 := by
      rw [hfi2]
      exact updFi_le _ _ _ hfi
    have hb3 : fi3 ≤ indentation + 1 := by
      rw [hfi3]
      exact updFi_le _ _ _ hb2
    have hb4 : fi4e ≤ indentation + 1 := by
      rw [hfi4e]
      exact updFi_le _ _ _ hb3
    refine ⟨?_, hb4⟩
    have eK := keyResult_spec sp hexpr input1 fi1 af
    rw [← hK] at eK
    have ekv := hws K.1 (fi1 + 1) true
    rw [← hkv] at ekv
    have eC := colonResult_spec kv.1
    rw [← hC] at eC
    have ews2 := hws C.1 (fi2 + 1) true
    rw [← hws2] at ews2
    have eV := valueResult_spec sp hexpr ws2.1 (fi3 + 1) af
    rw [← hV] at eV
    have ews3 := hws V.1 (fi3 + 1) true
    rw [← hws3] at ews3
    have eCm := commaResult_spec ws3.1
    rw [← hCm] at eCm
    split
    · rename_i hshT
      simp only [Bool.and_eq_true, Bool.not_eq_true'] at hshT
      obtain ⟨⟨hKsome, hCf⟩, hVf⟩ := hshT
      obtain ⟨hC1, hCfmt⟩ := eC.2 hCf
      have hm : sp.wsnl (sp.wsnl K.1 (fi1 + 1) true).1 (fi2 + 1) true
          = ((sp.wsnl K.1 (fi1 + 1) true).1, []) := by
        refine hmax K.1 (fi1 + 1) (fi2 + 1) ?_
        have hle := le_updFi (isMultilineList kv.2) indentation fi1 hfi
        rw [← hfi2] at hle
        omega
      rw [← hkv] at hm
      have hws2eq : ws2 = (kv.1, []) := by rw [hws2, hC1, hm]
      obtain ⟨hV1, hVfmt⟩ := eV.2 hVf
      have hfi3eq : fi3 = fi2 := by
        rw [hfi3, hws2eq]
        rfl
      have hws3eq : ws3 = (kv.1, []) := by
        rw [hws3, hV1, hws2eq, hfi3eq]
        exact hm
      have hws31 : ws3.1 = kv.1 := by rw [hws3eq]
      simp only [Rcst.format, keyColonFormat, wrapInWhitespace_format,
        unwrapKeyOrValue_format, List.nil_append, List.append_assoc]
      rw [eCm, hws31, ekv]
      exact eK
    · rename_i hshF
      simp only [Rcst.format, keyColonFormat, wrapInWhitespace_format,
        unwrapKeyOrValue_format, List.append_assoc]
      rw [eCm, ews3, eV.1, ews2, eC.1, ekv]
      exact eK

theorem structLoop_spec (sp : SubParsers)
    (hexpr : ∀ input ind opts rest node,
        sp.expression input ind opts = some (rest, node) →
        node.format ++ rest = input)
    (hws : ∀ input ind c,
        formatList (sp.wsnl input ind c).2 ++ (sp.wsnl input ind c).1 = input)
    (hmax : ∀ input ind ind2, ind ≤ ind2 →
        sp.wsnl (sp.wsnl input ind true).1 ind2 true
          = ((sp.wsnl input ind true).1, []))
    (indentation : Nat) (af : Bool) :
    ∀ fuel outerInput ob fields fi out,
      fi ≤ indentation + 1 →
      structLoop sp fuel indentation af outerInput ob fields fi = some out →
      out.2.1.format ++ (formatList out.2.2 ++ out.1)
        = ob.format ++ (formatList fields ++ outerInput) := by
  intro fuel
  induction fuel with
  | zero =>
    intro outerInput ob fields fi out hfi h
    simp [structLoop] at h
  | succ fuel ih =>
    intro outerInput ob fields fi out hfi h
    simp only [structLoop] at h
    set pws := sp.wsnl outerInput (indentation + 1) true with hpws
    set fi1 := updFi (isMultilineList pws.2) indentation fi with hfi1
    set ob1 := (if fields.isEmpty then wrapInWhitespace ob pws.2 else ob)
      with hob1
    set fields1 := (if fields.isEmpty then fields else wrapLast fields pws.2)
      with hfields1
    have hwsE := hws outerInput (indentation + 1) true
    rw [← hpws] at hwsE
    have hacc : ob1.format ++ (formatList fields1 ++ pws.1)
        = ob.format ++ (formatList fields ++ outerInput) := by
      cases hemp : fields.isEmpty with
      | true =>
        have hnil : fields = [] := List.isEmpty_iff.mp hemp
        subst hnil
        rw [hob1, hfields1]
        simp only [hemp, if_true, wrapInWhitespace_format]
        simp only [show formatList ([] : List Rcst) = [] from rfl,
          List.nil_append, List.append_assoc]
        rw [hwsE]
      | false =>
        rw [hob1, hfields1]
        simp only [hemp, Bool.false_eq_true, if_false]
        rw [wrapLast_format fields pws.2
          (fun hn => by rw [hn] at hemp; exact Bool.noConfusion hemp)]
        rw [List.append_assoc, hwsE]
    split at h
    · simp only [Option.some.injEq] at h
      subst h
      exact hacc
    · rename_i res i8 field fi4 hstep
      obtain ⟨hfieldAcc, hfi4⟩ :=
        structFieldStep_spec sp hexpr hws hmax indentation af pws.1 fi1
          (by rw [hfi1]; exact updFi_le _ _ _ hfi) i8 field fi4 hstep
      have hrec := ih i8 ob1 (fields1 ++ [field]) fi4 out hfi4 h
      rw [hrec, formatList_append]
      have hf1 : formatList [field] = field.format := by
        simp [formatList]
      rw [hf1, List.append_assoc, hfieldAcc]
      exact hacc

/-- **C1.** Parser round trip for structs: whenever `struct_` succeeds —
returning remaining input and a CST node, with all preserved whitespace,
comments and Error nodes (`StructFieldMissesColon`,
`StructFieldMissesValue`, `StructFieldMissesKey`, `StructNotClosed`)
embedded in the node — formatting the node and concatenating the remaining
input yields the original input exactly. The `expression` and
`whitespaces_and_newlines` sub-parsers are abstract, assumed to satisfy the
same round-trip property; whitespace parsing is additionally assumed
maximal (re-running it on its own residue at an equal-or-larger indentation
consumes nothing). -/
theorem struct_round_trip (sp : SubParsers)
    (hexpr : ∀ input ind opts rest node,
        sp.expression input ind opts = some (rest, node) →
        node.format ++ rest = input)
    (hws : ∀ input ind c,
        formatList (sp.wsnl input ind c).2 ++ (sp.wsnl input ind c).1 = input)
    (hmax : ∀ input ind ind2, ind ≤ ind2 →
        sp.wsnl (sp.wsnl input ind true).1 ind2 true
          = ((sp.wsnl input ind true).1, []))
    (fuel : Nat) (input : List Char) (indentation : Nat) (af : Bool)
    (rest : List Char) (node : Rcst)
    (h : struct_ sp fuel input indentation af = some (rest, node)) :
    node.format ++ rest = input := by
  simp only [struct_] at h
  split at h
  · exact Option.noConfusion h
  · rename_i obRes hob
    obtain ⟨hobNode, hobIn⟩ :=
      parseOpeningBracket_eq input obRes.1 obRes.2 (by rw [hob])
    split at h
    · exact Option.noConfusion h
    · rename_i res hloop
      have hlp := structLoop_spec sp hexpr hws hmax indentation af fuel
        obRes.1 obRes.2 [] indentation res (Nat.le_succ _) hloop
      have hfin : obRes.2.format ++ (formatList [] ++ obRes.1) = input := by
        rw [hobNode, hobIn]
        rfl
      rw [hfin] at hlp
      set p := sp.wsnl res.1 indentation true with hp
      have hwsE := hws res.1 indentation true
      rw [← hp] at hwsE
      split at h
      · rename_i cbRes hcb
        obtain ⟨hcbNode, hcbIn⟩ :=
          parseClosingBracket_eq p.1 cbRes.1 cbRes.2 (by rw [hcb])
        split at h
        · rename_i hemp
          have hfe : res.2.2 = [] := List.isEmpty_iff.mp hemp
          simp only [Option.some.injEq, Prod.mk.injEq] at h
          obtain ⟨hrest, hnode⟩ := h
          subst hrest
          subst hnode
          simp only [Rcst.format, wrapInWhitespace_format, hcbNode, hfe]
          simp only [show formatList ([] : List Rcst) = [] from rfl,
            List.nil_append, List.append_assoc, List.singleton_append]
          rw [← hcbIn, hwsE]
          simpa [hfe] using hlp
        · rename_i hemp
          simp only [Option.some.injEq, Prod.mk.injEq] at h
          obtain ⟨hrest, hnode⟩ := h
          subst hrest
          subst hnode
          simp only [Rcst.format, hcbNode]
          rw [wrapLast_format res.2.2 p.2
            (fun hn => by rw [hn] at hemp; exact hemp rfl)]
          simp only [List.append_assoc, List.singleton_append]
          rw [← hcbIn, hwsE]
          exact hlp
      · rename_i hcb
        simp only [Option.some.injEq, Prod.mk.injEq] at h
        obtain ⟨hrest, hnode⟩ := h
        subst hrest
        subst hnode
        simp only [Rcst.format, List.append_assoc]
        simpa using hlp

/-- Sub-parsers for the witness: `expression` always fails and
`whitespaces_and_newlines` consumes nothing; both trivially satisfy the
round-trip and maximality assumptions. -/
def trivialSubParsers : SubParsers where
  expression := fun _ _ _ => none
  wsnl := fun i _ _ => (i, [])

/-- Witness for C1: parsing `[]` with the trivial sub-parsers yields the
empty-struct node and empty rest, and formatting concatenated with the rest
reproduces the input. -/
theorem struct_round_trip_witness :
    Rcst.format (.struct .openingBracket [] .closingBracket) ++ [] =
      ['[', ']'] :=
  struct_round_trip trivialSubParsers
    (fun _ _ _ _ _ hc => Option.noConfusion hc)
    (fun _ _ _ => rfl)
    (fun _ _ _ _ => rfl)
    1 ['[', ']'] 0 false []
    (.struct .openingBracket [] .closingBracket) rfl

end Candy
